import Mathlib

/-!
Verification of the Real-Time-Racing-Intelligence core against its
natural-language specification.

The definitions below are a shallow embedding of the repository's core:
- `src/race_engine/what_if.py` (counterfactual simulator and comparator),
- `src/race_analysis_engine/analysis/event_detection.py` (event detector),
- `scripts/generate_race_facts.py` (event catalog / key-event selection).

Floating-point numbers are modelled by `ℚ`; a pandas `NaN` cell is
modelled by `Option` with `none` standing for `NaN` (comparisons against
`NaN` are false, matching the `pd.notna` guards in the source).  Python
exceptions are modelled with `Except String`.
-/

namespace RaceIntel

/-! ## A generic stable insertion sort

`pandas.sort_values` on a list of columns uses `np.lexsort`, which is a
stable sort; the stable insertion sort `sortB` (an element is inserted
in front of the first position where the comparator allows it, so
elements the comparator ties keep their original relative order) is an
exact model of it.  The simulator's single-column sort instead uses
numpy's default quicksort, which is NOT stable on larger tables; `sortB`
fixes one admissible tie order for it, so only properties that are
invariant under reordering of comparator-tied elements are asserted
about the simulator's output. -/

def insertB (le : α → α → Bool) (x : α) : List α → List α
  | [] => [x]
  | y :: ys => if le x y then x :: y :: ys else y :: insertB le x ys

def sortB (le : α → α → Bool) : List α → List α
  | [] => []
  | x :: xs => insertB le x (sortB le xs)

/-! ## Kernel-computable string comparison

Python (and hence pandas with object-dtype vehicle ids) compares
strings lexicographically by Unicode code points.  The comparison is
spelled out on the character lists so that concrete runs reduce. -/

def charListLtB : List Char → List Char → Bool
  | [], [] => false
  | [], _ :: _ => true
  | _ :: _, [] => false
  | a :: as, b :: bs =>
    if a = b then charListLtB as bs else decide (a.toNat < b.toNat)

def strLtB (a b : String) : Bool := charListLtB a.data b.data

def strLeB (a b : String) : Bool := strLtB a b || decide (a = b)

/-! ## Counterfactual simulator (`src/race_engine/what_if.py`) -/

/-- One row of the `lap_times` table: only `vehicle_id` and
`lap_time_seconds` are read by `simulate_no_events`. -/
structure LapTimeRow where
  vehicle_id : String
  lap_time_seconds : ℚ
deriving DecidableEq, Repr

/-- One row of the `event_detection` table as consumed by the simulator
and the removal filter.  `role := none` models a `NaN` role cell. -/
structure EventRow where
  event_id : String
  vehicle_id : String
  event_type : String
  role : Option String
  time_loss_estimate : ℚ
deriving DecidableEq, Repr

/-- One row of the simulator's output frame.  `real_position := none` and
`position_change := none` model `NaN` cells. -/
structure ScenarioRow where
  vehicle_id : String
  real_total_time : ℚ
  total_event_loss : ℚ
  adj_total_time : ℚ
  adj_position : ℕ
  real_position : Option ℚ
  position_change : Option ℚ
deriving DecidableEq, Repr

/-- Intermediate row after the `join`/`fillna` step, before ranking. -/
structure PreRow where
  vehicle_id : String
  real_total_time : ℚ
  total_event_loss : ℚ
  adj_total_time : ℚ
deriving DecidableEq, Repr

/-- The distinct vehicle ids of the lap-times table in ascending order:
`groupby("vehicle_id")` sorts its group keys. -/
def groupKeys (lap_times : List LapTimeRow) : List String :=
  sortB strLeB (lap_times.map (·.vehicle_id)).dedup

/-- `lt.groupby("vehicle_id")["lap_time_seconds"].sum()` at key `v`. -/
def realTotalTime (lap_times : List LapTimeRow) (v : String) : ℚ :=
  ((lap_times.filter (fun r => decide (r.vehicle_id = v))).map
    (·.lap_time_seconds)).sum

/-- The events kept for removal: with no filter (`None`) all detected
events are kept; otherwise the inner merge on `event_id` keeps each
event once per matching filter row. -/
def keptEvents (event_detection : List EventRow)
    (events_to_remove : Option (List EventRow)) : List EventRow :=
  match events_to_remove with
  | none => event_detection
  | some f =>
    event_detection.flatMap (fun e =>
      List.replicate (f.countP (fun x => decide (x.event_id = e.event_id))) e)

/-- `ev.groupby("vehicle_id")["time_loss_estimate"].sum()` at key `v`,
with the left-join `fillna` giving `0` when `v` has no kept event. -/
def eventLoss (kept : List EventRow) (v : String) : ℚ :=
  ((kept.filter (fun e => decide (e.vehicle_id = v))).map
    (·.time_loss_estimate)).sum

/-- The joined frame before ranking, one row per grouped vehicle id, in
the (vehicle-id-sorted) order produced by the `groupby`. -/
def preRows (lap_times : List LapTimeRow) (event_detection : List EventRow)
    (events_to_remove : Option (List EventRow)) : List PreRow :=
  (groupKeys lap_times).map (fun v =>
    let rt := realTotalTime lap_times v
    let lo := eventLoss (keptEvents event_detection events_to_remove) v
    ⟨v, rt, lo, rt - lo⟩)

/-- Last-match lookup in the `results_df` position map: the Python dict
comprehension lets later rows overwrite earlier ones. -/
def posLookup (results : List (String × ℚ)) (v : String) : Option ℚ :=
  (results.reverse.find? (fun p => decide (p.1 = v))).map Prod.snd

/-- Build one output row from a ranked row: `real_position` from the
results map, `position_change = real_position - adj_position`. -/
def mkSRow (results_df : Option (List (String × ℚ))) (p : PreRow)
    (pos : ℕ) : ScenarioRow :=
  let rp : Option ℚ := results_df.bind (fun res => posLookup res p.vehicle_id)
  { vehicle_id := p.vehicle_id
    real_total_time := p.real_total_time
    total_event_loss := p.total_event_loss
    adj_total_time := p.adj_total_time
    adj_position := pos
    real_position := rp
    position_change := rp.map (fun x => x - (pos : ℚ)) }

/-- Attach `adj_position` (1-based rank), `real_position` and
`position_change` to the rows sorted by adjusted time. -/
def assignPositions (results_df : Option (List (String × ℚ))) :
    ℕ → List PreRow → List ScenarioRow
  | _, [] => []
  | i, p :: rest =>
    mkSRow results_df p (i + 1) :: assignPositions results_df (i + 1) rest

/-- Shallow embedding of `simulate_no_events` for well-formed (typed)
input tables. -/
def simulate_no_events (lap_times : List LapTimeRow)
    (event_detection : List EventRow)
    (events_to_remove : Option (List EventRow))
    (results_df : Option (List (String × ℚ))) : List ScenarioRow :=
  assignPositions results_df 0
    (sortB (fun a b => decide (a.adj_total_time ≤ b.adj_total_time))
      (preRows lap_times event_detection events_to_remove))

/-! ## Removal filter (`filter_events_for_removal`) -/

/-- The events table together with flags recording which of the three
filterable columns are actually present in the frame. -/
structure EvTable where
  hasVehicleCol : Bool
  hasTypeCol : Bool
  hasRoleCol : Bool
  rows : List EventRow
deriving DecidableEq, Repr

/-- Shallow embedding of `filter_events_for_removal`: each criterion is
applied only when its argument is non-null AND its column exists. -/
def filter_events_for_removal (t : EvTable) (vehicleId : Option String)
    (eventType : Option String) (role : Option String) : EvTable :=
  let r1 := match vehicleId with
    | some v => if t.hasVehicleCol then
        t.rows.filter (fun e => decide (e.vehicle_id = v)) else t.rows
    | none => t.rows
  let r2 := match eventType with
    | some ty => if t.hasTypeCol then
        r1.filter (fun e => decide (e.event_type = ty)) else r1
    | none => r1
  let r3 := match role with
    | some ro => if t.hasRoleCol then
        r2.filter (fun e => decide (e.role = some ro)) else r2
    | none => r2
  { t with rows := r3 }

/-! ## Scenario comparator (`compare_scenarios`) -/

/-- One comparator entry: `adj_total_time`, `adj_position` and
`total_event_loss` of the first row matching the driver. -/
structure CompEntry where
  total_time : ℚ
  position : ℕ
  time_gain : ℚ
deriving DecidableEq, Repr

/-- Shallow embedding of `compare_scenarios`: each scenario contributes
an entry built from its first row for `driver_id`; a scenario without
such a row (`IndexError` on `.iloc[0]`) is skipped. -/
def compare_scenarios (scenarioList : List (String × List ScenarioRow))
    (driver_id : String) : List (String × CompEntry) :=
  scenarioList.filterMap (fun p =>
    (p.2.find? (fun r => decide (r.vehicle_id = driver_id))).map (fun r =>
      (p.1, ⟨r.adj_total_time, r.adj_position, r.total_event_loss⟩)))

/-! ## Event detector (`src/race_analysis_engine/analysis/event_detection.py`)

Lap metric cells are `Option ℚ` (`none` = `NaN`); the lap number cell is
`Option ℤ` (`int(row['lap'])` raises on `NaN`, modelled by
`Except.error`); `end_time` is an `Option ℕ` tick count (`none` = `NaT`,
whose `strftime` raises when an event is created). -/

/-- One row of the `per_lap` metrics table. -/
structure LapRow where
  vehicle_id : String
  lap : Option ℤ
  end_time : Option ℕ
  lap_time_seconds : Option ℚ
  peak_lat_G : Option ℚ
  peak_long_G : Option ℚ
deriving DecidableEq, Repr

/-- An Event record as produced by the detector (the formatted
`event_id` string and free-text description are presentation only and
are not modelled; `(vehicle_id, lap, timestamp, event_type)` determines
them). -/
structure Event where
  vehicle_id : String
  lap : ℤ
  timestamp : ℕ
  event_type : String
  severity_score : ℚ
  time_loss_estimate : ℚ
  steering_correction_deg : Option ℚ
  brake_spike : Bool
  speed_loss : Option ℚ
  latG_spike : Option ℚ
  rpm_drop : Option ℚ
deriving DecidableEq, Repr

/-- A pandas comparison involving a `NaN` operand is false. -/
def optLt (a b : Option ℚ) : Bool :=
  match a, b with
  | some x, some y => decide (x < y)
  | _, _ => false

/-- Ascending-with-NaN-last order on the lap cell, as used by
`sort_values(['vehicle_id','lap'])`. -/
def lapCellLe : Option ℤ → Option ℤ → Bool
  | _, none => true
  | none, some _ => false
  | some a, some b => decide (a ≤ b)

/-- Lexicographic row order of `per_lap.sort_values(['vehicle_id','lap'])`
(a stable multi-column sort via `np.lexsort`). -/
def lapRowLe (a b : LapRow) : Bool :=
  strLtB a.vehicle_id b.vehicle_id ||
    (decide (a.vehicle_id = b.vehicle_id) && lapCellLe a.lap b.lap)

/-- `shift(1).rolling(3, min_periods=1).mean()`: the mean of the non-`NaN`
values among the previous (up to) 3 cells, `NaN` when there is none. -/
def rollMean (prev3 : List (Option ℚ)) : Option ℚ :=
  let vals := prev3.filterMap id
  if vals.isEmpty then none else some (vals.sum / vals.length)

/-- The pace-collapse check for one row. `prev` holds the vehicle's prior
rows, most recent first.  `int(row['lap'])` is evaluated for every row
before the rule fires, so a `NaN` lap raises; `ts.strftime` raises on a
`NaT` end time, but only when the rule fires. -/
def paceStep (prev : List LapRow) (r : LapRow) : Except String (Option Event) :=
  match r.lap with
  | none => .error "cannot convert NaN lap to int"
  | some lapN =>
    let w := prev.take 3
    let rmT := rollMean (w.map (·.lap_time_seconds))
    let rmLat := rollMean (w.map (·.peak_lat_G))
    let rmLong := rollMean (w.map (·.peak_long_G))
    match rmT, r.lap_time_seconds with
    | some m, some y =>
      if decide (y > (1015/1000 : ℚ) * m) &&
          optLt r.peak_lat_G (rmLat.map (fun v => v - 2/10)) &&
          optLt r.peak_long_G (rmLong.map (fun v => v - 15/100)) then
        match r.end_time with
        | none => .error "NaTType does not support strftime"
        | some ts =>
          .ok (some
            { vehicle_id := r.vehicle_id, lap := lapN, timestamp := ts
              event_type := "pace_collapse"
              severity_score := 7/10
              time_loss_estimate := max (1/2) ((y - m) / 1)
              steering_correction_deg := none, brake_spike := false
              speed_loss := none, latG_spike := none, rpm_drop := none })
      else .ok none
    | _, _ => .ok none

/-- The pace-collapse pass over the sorted rows; `prev` is reset whenever
the vehicle id changes (the rolling window is per vehicle). -/
def paceAux (prev : List LapRow) : List LapRow → Except String (List Event)
  | [] => .ok []
  | r :: rest =>
    let p := match prev.head? with
      | some h => if h.vehicle_id = r.vehicle_id then prev else []
      | none => prev
    match paceStep p r with
    | .error e => .error e
    | .ok oev =>
      match paceAux (r :: p) rest with
      | .error e => .error e
      | .ok evs => .ok (oev.toList ++ evs)

/-- Consecutive runs of rows with equal vehicle ids (the groups of
`groupby('vehicle_id')` applied to the sorted table). -/
def groupRunsAux (cur : List LapRow) : List LapRow → List (List LapRow)
  | [] => [cur.reverse]
  | r :: rest =>
    match cur.head? with
    | some h =>
      if h.vehicle_id = r.vehicle_id then groupRunsAux (r :: cur) rest
      else cur.reverse :: groupRunsAux [r] rest
    | none => groupRunsAux [r] rest

def groupRuns : List LapRow → List (List LapRow)
  | [] => []
  | r :: rest => groupRunsAux [r] rest

/-- Mean of a list of rationals (`np.nanmean` of all-finite values). -/
def meanQ (l : List ℚ) : ℚ := l.sum / l.length

/-- Least-squares slope of `np.polyfit(x, y, 1)[0]`.  A `NaN` among the
inputs makes `polyfit` return `NaN` or raise inside the surrounding
`try`, and a degenerate abscissa makes the system singular; both are
modelled as `none`, in which case the degradation rule does not fire. -/
def slopeLSQ (g : List LapRow) (f : LapRow → Option ℚ) : Option ℚ :=
  if (g.map (·.lap)).all (·.isSome) && (g.map f).all (·.isSome) then
    let xs := (g.map (·.lap)).filterMap (fun o => o.map (fun n => (n : ℚ)))
    let ys := (g.map f).filterMap id
    let n : ℚ := xs.length
    let den := n * (xs.map (fun x => x * x)).sum - xs.sum ^ 2
    if den = 0 then none
    else some ((n * (List.zipWith (· * ·) xs ys).sum - xs.sum * ys.sum) / den)
  else none

/-- `diff().fillna(0).clip(lower=0)` of the lap-time column of a group. -/
def clippedDiffsAux (prev : Option ℚ) : List (Option ℚ) → List ℚ
  | [] => []
  | z :: zs =>
    (match prev, z with
      | some a, some b => max 0 (b - a)
      | _, _ => 0) :: clippedDiffsAux z zs

def clippedDiffs : List (Option ℚ) → List ℚ
  | [] => []
  | y :: rest => 0 :: clippedDiffsAux y rest

/-- The degradation check for one vehicle group (needs at least 3 rows;
fires on lap-time slope > 0.1 and lateral-G slope < -0.01). -/
def degrStep (g : List LapRow) : Except String (Option Event) :=
  if g.length < 3 then .ok none
  else
    match slopeLSQ g (·.lap_time_seconds), slopeLSQ g (·.peak_lat_G) with
    | some s, some ls =>
      if decide (s > 1/10) && decide (ls < -(1/100)) then
        match g.getLast? with
        | none => .ok none
        | some last =>
          match last.lap, last.end_time with
          | some lapN, some ts =>
            .ok (some
              { vehicle_id := last.vehicle_id, lap := lapN, timestamp := ts
                event_type := "degradation_phase"
                severity_score := min 1 (s / (1/2))
                time_loss_estimate :=
                  meanQ (((clippedDiffs (g.map (·.lap_time_seconds))).reverse.take 3))
                steering_correction_deg := none, brake_spike := false
                speed_loss := none, latG_spike := none, rpm_drop := none })
          | some _, none => .error "NaTType does not support strftime"
          | none, _ => .error "cannot convert NaN lap to int"
      else .ok none
    | _, _ => .ok none

def degrPass : List (List LapRow) → Except String (List Event)
  | [] => .ok []
  | g :: gs =>
    match degrStep g with
    | .error e => .error e
    | .ok oev =>
      match degrPass gs with
      | .error e => .error e
      | .ok evs => .ok (oev.toList ++ evs)

/-- Shallow embedding of `detect_lap_level_events`: sort by
`(vehicle_id, lap)`, run the pace-collapse pass, then the per-vehicle
degradation pass, and concatenate in that order. -/
def detect_lap_level_events (per_lap : List LapRow) : Except String (List Event) :=
  let s := sortB lapRowLe per_lap
  match paceAux [] s with
  | .error e => .error e
  | .ok pace =>
    match degrPass (groupRuns s) with
    | .error e => .error e
    | .ok degr => .ok (pace ++ degr)

/-- One telemetry sample of a lap parquet file; each channel cell is
`Option ℚ` (`none` = missing column or `NaN` value). -/
structure TeleSample where
  speed : Option ℚ
  steering_angle : Option ℚ
  accy_can : Option ℚ
  pbrake_f : Option ℚ
  nmot : Option ℚ
  gear : Option ℚ
deriving DecidableEq, Repr

/-- Rule 1, lockup: front-brake rise > 10 over the prior 2 samples, speed
drop > 6 and lateral-G drop > 0.3 over the prior 3 samples. -/
def lockEv (vid : String) (lapN : ℤ) (idx : ℕ)
    (m3 m2 _m1 cur : TeleSample) : Option Event :=
  match cur.pbrake_f, m2.pbrake_f with
  | some pb0, some pb2 =>
    if decide (pb0 - pb2 > 10) then
      match m3.speed, cur.speed, m3.accy_can, cur.accy_can with
      | some sp3, some sp0, some ac3, some ac0 =>
        if decide (sp3 - sp0 > 6) && decide (ac3 - ac0 > 3/10) then
          some
            { vehicle_id := vid, lap := lapN, timestamp := idx
              event_type := "lockup"
              severity_score :=
                min 1 ((|pb0 - pb2| / 50 + (sp3 - sp0) / 10 + (ac3 - ac0) / 2) / 3)
              time_loss_estimate := (sp3 - sp0) / 9
              steering_correction_deg :=
                match cur.steering_angle, m2.steering_angle with
                | some s0, some s2 => some |s0 - s2|
                | _, _ => none
              brake_spike := true
              speed_loss := some (sp3 - sp0)
              latG_spike := some (ac3 - ac0)
              rpm_drop := none }
        else none
      | _, _, _, _ => none
    else none
  | _, _ => none

/-- Rule 2, near spin: steering change > 20 over the prior 2 samples,
lateral-G rise > 1.5 and speed drop > 4 over the prior 3 samples. -/
def spinEv (vid : String) (lapN : ℤ) (idx : ℕ)
    (m3 m2 _m1 cur : TeleSample) : Option Event :=
  match cur.steering_angle, m2.steering_angle with
  | some s0, some s2 =>
    if decide (|s0 - s2| > 20) then
      match cur.accy_can, m3.accy_can, m3.speed, cur.speed with
      | some ac0, some ac3, some sp3, some sp0 =>
        if decide (ac0 - ac3 > 3/2) && decide (sp3 - sp0 > 4) then
          some
            { vehicle_id := vid, lap := lapN, timestamp := idx
              event_type := "near_spin"
              severity_score :=
                min 1 ((|s0 - s2| / 40 + (ac0 - ac3) / 3 + (sp3 - sp0) / 10) / 3)
              time_loss_estimate := (sp3 - sp0) / 9
              steering_correction_deg := some |s0 - s2|
              brake_spike := false
              speed_loss := some (sp3 - sp0)
              latG_spike := some (ac0 - ac3)
              rpm_drop := none }
        else none
      | _, _, _, _ => none
    else none
  | _, _ => none

/-- Rule 3, understeer: steering rise > 8 over the prior 3 samples,
lateral-G change < 0.2 in absolute value, speed drop > 3 (a `NaN` speed
makes the comparison false). -/
def underEv (vid : String) (lapN : ℤ) (idx : ℕ)
    (m3 _m2 _m1 cur : TeleSample) : Option Event :=
  match cur.steering_angle, m3.steering_angle with
  | some s0, some s3 =>
    if decide (s0 - s3 > 8) then
      match cur.accy_can, m3.accy_can with
      | some ac0, some ac3 =>
        if decide (|ac0 - ac3| < 2/10) then
          match m3.speed, cur.speed with
          | some sp3, some sp0 =>
            if decide (sp3 - sp0 > 3) then
              some
                { vehicle_id := vid, lap := lapN, timestamp := idx
                  event_type := "understeer"
                  severity_score := min 1 ((|s0 - s3| / 20 + (sp3 - sp0) / 10) / 2)
                  time_loss_estimate := (sp3 - sp0) / 9
                  steering_correction_deg := some |s0 - s3|
                  brake_spike := false
                  speed_loss := some (sp3 - sp0)
                  latG_spike := some |ac0 - ac3|
                  rpm_drop := none }
            else none
          | _, _ => none
        else none
      | _, _ => none
    else none
  | _, _ => none

/-- Rule 4, missed shift: gear changed since the previous sample, engine
speed dropped > 1200 rpm and speed changed < 1.5 between them. -/
def shiftEv (vid : String) (lapN : ℤ) (idx : ℕ)
    (_m3 _m2 m1 cur : TeleSample) : Option Event :=
  match cur.gear, m1.gear with
  | some g0, some g1 =>
    if decide (g0 ≠ g1) then
      match m1.nmot, cur.nmot with
      | some n1, some n0 =>
        if decide (n1 - n0 > 1200) then
          match cur.speed, m1.speed with
          | some sp0, some sp1 =>
            if decide (|sp0 - sp1| < 3/2) then
              some
                { vehicle_id := vid, lap := lapN, timestamp := idx
                  event_type := "missed_shift"
                  severity_score := min 1 ((n1 - n0) / 4000)
                  time_loss_estimate := 1/2
                  steering_correction_deg := none
                  brake_spike := false
                  speed_loss := some |sp0 - sp1|
                  latG_spike := none
                  rpm_drop := some (n1 - n0) }
            else none
          | _, _ => none
        else none
      | _, _ => none
    else none
  | _, _ => none

/-- The ordered rule chain at one sample: first match wins
(lockup, then near spin, then understeer, then missed shift). -/
def sampleStep (vid : String) (lapN : ℤ) (idx : ℕ)
    (m3 m2 m1 cur : TeleSample) : Option Event :=
  (lockEv vid lapN idx m3 m2 m1 cur).orElse fun _ =>
    (spinEv vid lapN idx m3 m2 m1 cur).orElse fun _ =>
      (underEv vid lapN idx m3 m2 m1 cur).orElse fun _ =>
        shiftEv vid lapN idx m3 m2 m1 cur

/-- Walk of one lap's samples carrying the three lagged samples; the
current sample has 0-based index `idx ≥ 3`. -/
def teleAux (vid : String) (lapN : ℤ) :
    ℕ → TeleSample → TeleSample → TeleSample → List TeleSample → List Event
  | _, _, _, _, [] => []
  | idx, m3, m2, m1, cur :: rest =>
    (sampleStep vid lapN idx m3 m2 m1 cur).toList ++
      teleAux vid lapN (idx + 1) m2 m1 cur rest

/-- Sample-level detection over one lap's samples: rules are evaluated at
every sample after the third (`df.index[3:]`). -/
def detectTeleLap (vid : String) (lapN : ℤ) : List TeleSample → List Event
  | s0 :: s1 :: s2 :: rest => teleAux vid lapN 3 s0 s1 s2 rest
  | _ => []

/-- Shallow embedding of `detect_telemetry_events`: iterate the `per_lap`
rows in the given order; `int(row['lap'])` raises on a `NaN` lap; a lap
with no parquet file (`files vid lap = none`) is skipped. -/
def detect_telemetry_events (files : String → ℤ → Option (List TeleSample)) :
    List LapRow → Except String (List Event)
  | [] => .ok []
  | r :: rest =>
    match r.lap with
    | none => .error "cannot convert NaN lap to int"
    | some lapN =>
      let evs := match files r.vehicle_id lapN with
        | none => []
        | some samples => detectTeleLap r.vehicle_id lapN samples
      match detect_telemetry_events files rest with
      | .error e => .error e
      | .ok more => .ok (evs ++ more)

/-! ## Event catalog (`scripts/generate_race_facts.py`, `compose_race_facts`) -/

/-- The comparator of
`events.sort_values(['severity_score','time_loss_estimate'], ascending=[False, False])`:
`a` may precede `b` when `(severity, time_loss)` of `a` is
lexicographically at least that of `b`. -/
def evLeB (a b : Event) : Bool :=
  decide (b.severity_score < a.severity_score) ||
    (decide (a.severity_score = b.severity_score) &&
      decide (b.time_loss_estimate ≤ a.time_loss_estimate))

/-- The stably sorted event list (pandas multi-column `sort_values` uses
the stable `np.lexsort`). -/
def sortedEvents (l : List Event) : List Event :=
  sortB evLeB l

/-- Shallow embedding of the key-event selection of `compose_race_facts`:
take the top 6 sorted events, label the first `race_turning_point` and
the next up to 3 `major_mistake`. -/
def raceKeyEvents (l : List Event) : List (Event × String) :=
  match (sortedEvents l).take 6 with
  | [] => []
  | t :: rest =>
    (t, "race_turning_point") :: (rest.take 3).map (fun e => (e, "major_mistake"))


deriving instance DecidableEq for Except

/-! ## Lemmas about the generic stable sort -/

theorem perm_insertB (le : α → α → Bool) (x : α) :
    ∀ l : List α, List.Perm (insertB le x l) (x :: l)
  | [] => List.Perm.refl _
  | y :: ys => by
    simp only [insertB]
    split
    · exact List.Perm.refl _
    · exact ((perm_insertB le x ys).cons y).trans (List.Perm.swap x y ys)

theorem perm_sortB (le : α → α → Bool) :
    ∀ l : List α, List.Perm (sortB le l) l
  | [] => List.Perm.refl _
  | x :: xs => by
    simp only [sortB]
    exact (perm_insertB le x (sortB le xs)).trans ((perm_sortB le xs).cons x)

theorem mem_insertB {le : α → α → Bool} {x z : α} :
    ∀ {l : List α}, z ∈ insertB le x l ↔ z = x ∨ z ∈ l
  | [] => by simp [insertB]
  | y :: ys => by
    simp only [insertB]
    split
    · simp [List.mem_cons]
    · simp only [List.mem_cons, mem_insertB (l := ys)]
      tauto

theorem mem_sortB {le : α → α → Bool} {z : α} {l : List α} :
    z ∈ sortB le l ↔ z ∈ l :=
  (perm_sortB le l).mem_iff

/-- Sortedness together with stability, for any total transitive Boolean
comparator.  If the input list is `Pairwise q`, then in the output any
two elements the comparator ties (`le` holds both ways) are still
`q`-related in their output order. -/
theorem pairwise_insertB (le : α → α → Bool)
    (htot : ∀ a b, le a b = false → le b a = true)
    (htrans : ∀ a b c, le a b = true → le b c = true → le a c = true)
    (q : α → α → Prop) (x : α) :
    ∀ l : List α,
      l.Pairwise (fun a b => le a b = true ∧ (le b a = true → q a b)) →
      (∀ z ∈ l, le x z = true → le z x = true → q x z) →
      (insertB le x l).Pairwise
        (fun a b => le a b = true ∧ (le b a = true → q a b))
  | [], _, _ => List.pairwise_singleton _ x
  | y :: ys, hpw, hq => by
    simp only [insertB]
    rcases List.pairwise_cons.mp hpw with ⟨hy, hys⟩
    rcases hxy : le x y with _ | _
    · rw [if_neg (by simp)]
      have hyx : le y x = true := htot x y hxy
      refine List.pairwise_cons.mpr ⟨?_, ?_⟩
      · intro z hz
        rcases mem_insertB.mp hz with rfl | hz'
        · exact ⟨hyx, fun h2 => absurd h2 (by simp [hxy])⟩
        · exact hy z hz'
      · exact pairwise_insertB le htot htrans q x ys hys
          (fun z hz => hq z (List.mem_cons_of_mem y hz))
    · rw [if_pos rfl]
      refine List.pairwise_cons.mpr ⟨?_, hpw⟩
      intro z hz
      rcases List.mem_cons.mp hz with rfl | hz'
      · exact ⟨hxy, fun h2 => hq z (List.mem_cons_self z ys) hxy h2⟩
      · have hxz : le x z = true := htrans x y z hxy (hy z hz').1
        exact ⟨hxz, fun h2 => hq z (List.mem_cons_of_mem y hz') hxz h2⟩

theorem pairwise_sortB (le : α → α → Bool)
    (htot : ∀ a b, le a b = false → le b a = true)
    (htrans : ∀ a b c, le a b = true → le b c = true → le a c = true)
    (q : α → α → Prop) :
    ∀ l : List α, l.Pairwise q →
      (sortB le l).Pairwise
        (fun a b => le a b = true ∧ (le b a = true → q a b))
  | [], _ => List.Pairwise.nil
  | x :: xs, hpw => by
    simp only [sortB]
    rcases List.pairwise_cons.mp hpw with ⟨hx, hxs⟩
    exact pairwise_insertB le htot htrans q x (sortB le xs)
      (pairwise_sortB le htot htrans q xs hxs)
      (fun z hz _ _ => hx z (mem_sortB.mp hz))

/-- A sort whose comparator only looks through `f` commutes with
`map f`. -/
theorem map_insertB {γ : Type v} (f : γ → α) (le : α → α → Bool) (x : γ) :
    ∀ l : List γ,
      (insertB (fun a b => le (f a) (f b)) x l).map f = insertB le (f x) (l.map f)
  | [] => rfl
  | y :: ys => by
    rcases h : le (f x) (f y) with _ | _ <;>
      simp [insertB, h, map_insertB f le x ys]

theorem map_sortB {γ : Type v} (f : γ → α) (le : α → α → Bool) :
    ∀ l : List γ,
      (sortB (fun a b => le (f a) (f b)) l).map f = sortB le (l.map f)
  | [] => rfl
  | x :: xs => by
    simp only [sortB, List.map_cons]
    rw [map_insertB f le x (sortB _ xs), map_sortB f le xs]

theorem charListLtB_irrefl : ∀ l, charListLtB l l = false
  | [] => rfl
  | a :: as => by simp [charListLtB, charListLtB_irrefl as]

theorem charListLtB_trans :
    ∀ l1 l2 l3, charListLtB l1 l2 = true → charListLtB l2 l3 = true →
      charListLtB l1 l3 = true
  | [], [], _, h1, _ => by cases h1
  | [], _ :: _, [], _, h2 => by cases h2
  | [], _ :: _, _ :: _, _, _ => rfl
  | _ :: _, [], _, h1, _ => by cases h1
  | _ :: _, _ :: _, [], _, h2 => by cases h2
  | a :: as, b :: bs, c :: cs, h1, h2 => by
    simp only [charListLtB] at h1 h2 ⊢
    by_cases hab : a = b
    · subst hab
      rw [if_pos rfl] at h1
      by_cases hbc : a = c
      · subst hbc
        rw [if_pos rfl] at h2
        rw [if_pos rfl]
        exact charListLtB_trans as bs cs h1 h2
      · rw [if_neg hbc] at h2 ⊢
        exact h2
    · rw [if_neg hab] at h1
      by_cases hbc : b = c
      · subst hbc
        rw [if_neg hab]
        exact h1
      · rw [if_neg hbc] at h2
        have h3 : a.toNat < c.toNat :=
          lt_trans (of_decide_eq_true h1) (of_decide_eq_true h2)
        have hac : a ≠ c := fun h => by
          subst h; exact absurd h3 (lt_irrefl _)
        rw [if_neg hac]
        exact decide_eq_true h3

theorem charListLtB_tri :
    ∀ l1 l2, charListLtB l1 l2 = false → charListLtB l2 l1 = false → l1 = l2
  | [], [], _, _ => rfl
  | [], _ :: _, h1, _ => by cases h1
  | _ :: _, [], _, h2 => by cases h2
  | a :: as, b :: bs, h1, h2 => by
    simp only [charListLtB] at h1 h2
    by_cases hab : a = b
    · subst hab
      rw [if_pos rfl] at h1 h2
      rw [charListLtB_tri as bs h1 h2]
    · rw [if_neg hab] at h1
      rw [if_neg (fun h => hab h.symm)] at h2
      have hn1 : ¬ a.toNat < b.toNat := of_decide_eq_false h1
      have hn2 : ¬ b.toNat < a.toNat := of_decide_eq_false h2
      have : a.toNat = b.toNat := le_antisymm (le_of_not_lt hn2) (le_of_not_lt hn1)
      exact absurd (Char.eq_of_val_eq (by
        have := congrArg Char.ofNat this
        simpa [Char.ofNat_toNat] using congrArg Char.val this)) hab

theorem strLtB_irrefl (a : String) : strLtB a a = false :=
  charListLtB_irrefl a.data

theorem strLtB_trans {a b c : String} (h1 : strLtB a b = true)
    (h2 : strLtB b c = true) : strLtB a c = true :=
  charListLtB_trans a.data b.data c.data h1 h2

theorem strLtB_asymm {a b : String} (h1 : strLtB a b = true) :
    strLtB b a = false := by
  rcases h : strLtB b a with _ | _
  · rfl
  · exact absurd (strLtB_trans h1 h) (by simp [strLtB_irrefl])

theorem strLtB_tri {a b : String} (h1 : strLtB a b = false)
    (h2 : strLtB b a = false) : a = b := by
  have := charListLtB_tri a.data b.data h1 h2
  exact String.ext this

theorem strLeB_total (a b : String) (h : strLeB a b = false) :
    strLeB b a = true := by
  simp only [strLeB, Bool.or_eq_false_iff, decide_eq_false_iff_not] at h
  rcases hba : strLtB b a with _ | _
  · exact absurd (strLtB_tri h.1 hba) h.2
  · simp [strLeB, hba]

theorem strLeB_trans (a b c : String) (h1 : strLeB a b = true)
    (h2 : strLeB b c = true) : strLeB a c = true := by
  simp only [strLeB, Bool.or_eq_true, decide_eq_true_eq] at h1 h2 ⊢
  rcases h1 with h1 | rfl
  · rcases h2 with h2 | rfl
    · exact Or.inl (strLtB_trans h1 h2)
    · exact Or.inl h1
  · exact h2

theorem strLeB_lt_of_ne {a b : String} (h : strLeB a b = true)
    (hne : a ≠ b) : strLtB a b = true := by
  simp only [strLeB, Bool.or_eq_true, decide_eq_true_eq] at h
  rcases h with h | rfl
  · exact h
  · exact absurd rfl hne

/-! ## Lemmas about the simulator -/

theorem length_assignPositions (res : Option (List (String × ℚ))) :
    ∀ (n : ℕ) (l : List PreRow), (assignPositions res n l).length = l.length
  | _, [] => rfl
  | n, _ :: rest => by
    simp [assignPositions, length_assignPositions res (n + 1) rest]

theorem get_assignPositions (res : Option (List (String × ℚ))) :
    ∀ (n : ℕ) (l : List PreRow) (i : ℕ) (h : i < (assignPositions res n l).length)
      (h2 : i < l.length),
      (assignPositions res n l).get ⟨i, h⟩ = mkSRow res (l.get ⟨i, h2⟩) (n + i + 1)
  | _, _ :: _, 0, _, _ => rfl
  | n, p :: rest, i + 1, h, h2 => by
    have hlt : i < (assignPositions res (n + 1) rest).length := by
      simp only [assignPositions, List.length_cons] at h
      omega
    have ih := get_assignPositions res (n + 1) rest i hlt (Nat.lt_of_succ_lt_succ h2)
    have harith : n + 1 + i + 1 = n + (i + 1) + 1 := by omega
    rw [harith] at ih
    exact ih

theorem mem_assignPositions {res : Option (List (String × ℚ))} {r : ScenarioRow} :
    ∀ {n : ℕ} {l : List PreRow}, r ∈ assignPositions res n l →
      ∃ p pos, p ∈ l ∧ r = mkSRow res p pos
  | _, [], h => absurd h (List.not_mem_nil r)
  | n, p :: rest, h => by
    rcases List.mem_cons.mp h with h | h
    · exact ⟨p, n + 1, List.mem_cons_self p rest, h⟩
    · rcases mem_assignPositions h with ⟨q, pos, hq, hr⟩
      exact ⟨q, pos, List.mem_cons_of_mem p hq, hr⟩

theorem strLeB_refl (a : String) : strLeB a a = true := by
  simp [strLeB]

theorem pairwise_lt_groupKeys (lap_times : List LapTimeRow) :
    (groupKeys lap_times).Pairwise (fun a b => strLtB a b = true) := by
  have h := pairwise_sortB strLeB strLeB_total strLeB_trans (fun a b => a ≠ b)
    (lap_times.map (·.vehicle_id)).dedup (List.nodup_dedup _)
  refine h.imp ?_
  rintro a b ⟨h1, h2⟩
  rcases eq_or_ne a b with rfl | hne
  · exact absurd rfl (h2 (strLeB_refl a))
  · exact strLeB_lt_of_ne h1 hne

theorem pairwise_vid_preRows (lap_times : List LapTimeRow)
    (ev : List EventRow) (rm : Option (List EventRow)) :
    (preRows lap_times ev rm).Pairwise
      (fun a b => strLtB a.vehicle_id b.vehicle_id = true) := by
  refine List.pairwise_map.mpr ?_
  exact (pairwise_lt_groupKeys lap_times).imp (fun h => h)

theorem adjLe_total (a b : PreRow) :
    decide (a.adj_total_time ≤ b.adj_total_time) = false →
      decide (b.adj_total_time ≤ a.adj_total_time) = true :=
  fun h => decide_eq_true (le_of_not_le (of_decide_eq_false h))

theorem adjLe_trans (a b c : PreRow) :
    decide (a.adj_total_time ≤ b.adj_total_time) = true →
      decide (b.adj_total_time ≤ c.adj_total_time) = true →
      decide (a.adj_total_time ≤ c.adj_total_time) = true :=
  fun h1 h2 => decide_eq_true
    (le_trans (of_decide_eq_true h1) (of_decide_eq_true h2))

theorem pairwise_sorted_preRows (lap_times : List LapTimeRow)
    (ev : List EventRow) (rm : Option (List EventRow)) :
    (sortB (fun a b => decide (a.adj_total_time ≤ b.adj_total_time))
        (preRows lap_times ev rm)).Pairwise
      (fun a b => decide (a.adj_total_time ≤ b.adj_total_time) = true ∧
        (decide (b.adj_total_time ≤ a.adj_total_time) = true →
          strLtB a.vehicle_id b.vehicle_id = true)) :=
  pairwise_sortB _ adjLe_total adjLe_trans _ _
    (pairwise_vid_preRows lap_times ev rm)

theorem keptEvents_empty_filter (ev : List EventRow) :
    keptEvents ev (some []) = [] := by
  simp [keptEvents, List.countP_nil]

/-- C1 (amended): `adjusted_position` is the 1-based rank in the sorted
order (`adj_position` of the row at sorted index `i` is `i + 1`) and the
ranking is strictly monotone in `adjusted_total_time`; but ties in
`adjusted_total_time` are NOT resolved by the original input order of
the lap-times table: `groupby("vehicle_id")` reorders the totals to
ascending `vehicle_id` before the single-column sort, whose own tie
order is implementation-defined. -/
theorem simulate_rank_monotone (lap_times : List LapTimeRow)
    (ev : List EventRow) (rm : Option (List EventRow))
    (res : Option (List (String × ℚ))) (i j : ℕ)
    (hi : i < (simulate_no_events lap_times ev rm res).length)
    (hj : j < (simulate_no_events lap_times ev rm res).length) :
    (((simulate_no_events lap_times ev rm res).get ⟨i, hi⟩).adj_position = i + 1) ∧
    (((simulate_no_events lap_times ev rm res).get ⟨i, hi⟩).adj_total_time <
        ((simulate_no_events lap_times ev rm res).get ⟨j, hj⟩).adj_total_time →
      ((simulate_no_events lap_times ev rm res).get ⟨i, hi⟩).adj_position <
        ((simulate_no_events lap_times ev rm res).get ⟨j, hj⟩).adj_position) := by
  have hi2 : i < (sortB (fun a b => decide (a.adj_total_time ≤ b.adj_total_time))
      (preRows lap_times ev rm)).length := by
    simpa [simulate_no_events, length_assignPositions] using hi
  have hj2 : j < (sortB (fun a b => decide (a.adj_total_time ≤ b.adj_total_time))
      (preRows lap_times ev rm)).length := by
    simpa [simulate_no_events, length_assignPositions] using hj
  have hgi := get_assignPositions res 0 _ i hi hi2
  have hgj := get_assignPositions res 0 _ j hj hj2
  have hpw := List.pairwise_iff_get.mp (pairwise_sorted_preRows lap_times ev rm)
  simp only [simulate_no_events] at hgi hgj ⊢
  rw [hgi, hgj]
  simp only [mkSRow]
  refine ⟨by omega, ?_⟩
  intro hlt
  rcases Nat.lt_trichotomy i j with h | h | h
  · omega
  · subst h
    exact absurd hlt (lt_irrefl _)
  · have h2 := (hpw ⟨j, hj2⟩ ⟨i, hi2⟩ h).1
    exact absurd (lt_of_lt_of_le hlt (of_decide_eq_true h2)) (lt_irrefl _)

unseal Rat.add Rat.sub Rat.mul Rat.inv Rat.ofScientific in
/-- C1 witness: two vehicles, B faster than A; the monotone implication
holds at sorted indices (0, 1). -/
theorem simulate_rank_monotone_witness :
    ((simulate_no_events [⟨"A", 100⟩, ⟨"B", 90⟩] [] none none).get
        ⟨0, by decide⟩).adj_position <
      ((simulate_no_events [⟨"A", 100⟩, ⟨"B", 90⟩] [] none none).get
        ⟨1, by decide⟩).adj_position :=
  (simulate_rank_monotone [⟨"A", 100⟩, ⟨"B", 90⟩] [] none none 0 1
    (by decide) (by decide)).2 (by decide)

unseal Rat.add Rat.sub Rat.mul Rat.inv Rat.ofScientific in
/-- C1 counterexample: the input lists vehicle B before vehicle A with
equal totals, so the claimed stable-input-order tie break would rank B
first; the code ranks A first: `groupby` sorted the totals to ascending
vehicle id, and at 2 rows the single-column sort (numpy falls back to
insertion sort at this size) keeps that order. -/
theorem simulate_rank_ties_counterexample :
    (simulate_no_events [⟨"B", 100⟩, ⟨"A", 100⟩] [] none none).map
        (fun r => (r.vehicle_id, r.adj_total_time, r.adj_position)) =
      [("A", 100, 1), ("B", 100, 2)] := by decide

/-- C2 (amended): with an empty removal filter every vehicle's
`adjusted_total_time` equals its `real_total_time` and the event loss is
0; but `position_change` equals the externally supplied `real_position`
minus the time-based rank, which is 0 only when the two agree. -/
theorem simulate_empty_filter (lap_times : List LapTimeRow)
    (ev : List EventRow) (res : Option (List (String × ℚ)))
    (r : ScenarioRow)
    (hr : r ∈ simulate_no_events lap_times ev (some []) res) :
    r.total_event_loss = 0 ∧ r.adj_total_time = r.real_total_time ∧
      ∀ p, r.real_position = some p →
        r.position_change = some (p - (r.adj_position : ℚ)) := by
  rcases mem_assignPositions hr with ⟨q, pos, hq, hrq⟩
  have hq2 := mem_sortB.mp hq
  rcases List.mem_map.mp hq2 with ⟨v, _, hv⟩
  have hloss : q.total_event_loss = 0 := by
    rw [← hv]
    simp [eventLoss, keptEvents_empty_filter]
  have hadj : q.adj_total_time = q.real_total_time := by
    rw [← hv]
    simp only [eventLoss, keptEvents_empty_filter, List.filter_nil,
      List.map_nil, List.sum_nil]
    ring
  subst hrq
  refine ⟨hloss, hadj, ?_⟩
  intro p hp
  have hrp : (mkSRow res q pos).real_position =
      res.bind (fun rs => posLookup rs q.vehicle_id) := rfl
  have hpc : (mkSRow res q pos).position_change =
      (res.bind (fun rs => posLookup rs q.vehicle_id)).map
        (fun x => x - ((mkSRow res q pos).adj_position : ℚ)) := rfl
  rw [hrp] at hp
  rw [hpc, hp]
  rfl

unseal Rat.add Rat.sub Rat.mul Rat.inv Rat.ofScientific in
/-- C2 witness: the amended theorem applied to the first output row of a
concrete run with an empty filter and inconsistent official positions. -/
theorem simulate_empty_filter_witness :
    ((simulate_no_events [⟨"A", 100⟩, ⟨"B", 90⟩]
        [⟨"e1", "A", "lockup", none, 10⟩] (some [])
        (some [("A", 1), ("B", 2)])).get ⟨0, by decide⟩).total_event_loss = 0 ∧
    ((simulate_no_events [⟨"A", 100⟩, ⟨"B", 90⟩]
        [⟨"e1", "A", "lockup", none, 10⟩] (some [])
        (some [("A", 1), ("B", 2)])).get ⟨0, by decide⟩).adj_total_time =
      ((simulate_no_events [⟨"A", 100⟩, ⟨"B", 90⟩]
        [⟨"e1", "A", "lockup", none, 10⟩] (some [])
        (some [("A", 1), ("B", 2)])).get ⟨0, by decide⟩).real_total_time ∧
    ((simulate_no_events [⟨"A", 100⟩, ⟨"B", 90⟩]
        [⟨"e1", "A", "lockup", none, 10⟩] (some [])
        (some [("A", 1), ("B", 2)])).get ⟨0, by decide⟩).position_change =
      some (2 - (((simulate_no_events [⟨"A", 100⟩, ⟨"B", 90⟩]
        [⟨"e1", "A", "lockup", none, 10⟩] (some [])
        (some [("A", 1), ("B", 2)])).get ⟨0, by decide⟩).adj_position : ℚ)) := by
  have h := simulate_empty_filter [⟨"A", 100⟩, ⟨"B", 90⟩]
    [⟨"e1", "A", "lockup", none, 10⟩] (some [("A", 1), ("B", 2)])
    ((simulate_no_events [⟨"A", 100⟩, ⟨"B", 90⟩]
      [⟨"e1", "A", "lockup", none, 10⟩] (some [])
      (some [("A", 1), ("B", 2)])).get ⟨0, by decide⟩)
    (List.get_mem _ _ _)
  exact ⟨h.1, h.2.1, h.2.2 2 (by decide)⟩

unseal Rat.add Rat.sub Rat.mul Rat.inv Rat.ofScientific in
/-- C2 counterexample: with an empty removal filter, vehicle A has known
`real_position = 1` but `position_change = -1 ≠ 0`, because the supplied
real positions disagree with the ascending rank of the lap-time totals. -/
theorem simulate_empty_filter_counterexample :
    (simulate_no_events [⟨"A", 100⟩, ⟨"B", 90⟩]
        [⟨"e1", "A", "lockup", none, 10⟩] (some [])
        (some [("A", 1), ("B", 2)])).map
        (fun r => (r.vehicle_id, r.real_position, r.position_change)) =
      [("B", some 2, some 1), ("A", some 1, some (-1))] := by decide

/-- C9: with `events_to_remove = None` the simulator subtracts, for every
vehicle, the summed `time_loss_estimate` of all detected events of that
vehicle: the default removes every event, not none. -/
theorem simulate_none_removes_all_events (lap_times : List LapTimeRow)
    (ev : List EventRow) (res : Option (List (String × ℚ)))
    (r : ScenarioRow) (hr : r ∈ simulate_no_events lap_times ev none res) :
    r.total_event_loss =
      ((ev.filter (fun e => decide (e.vehicle_id = r.vehicle_id))).map
        (·.time_loss_estimate)).sum := by
  rcases mem_assignPositions hr with ⟨q, pos, hq, hrq⟩
  have hq2 := mem_sortB.mp hq
  rcases List.mem_map.mp hq2 with ⟨v, _, hv⟩
  subst hrq
  simp only [mkSRow]
  rw [← hv]
  rfl

unseal Rat.add Rat.sub Rat.mul Rat.inv Rat.ofScientific in
/-- C9 witness: with no filter, vehicle A's 10-second lockup loss is
subtracted from A's total. -/
theorem simulate_none_removes_all_events_witness :
    ((simulate_no_events [⟨"A", 100⟩, ⟨"B", 90⟩]
        [⟨"e1", "A", "lockup", none, 10⟩] none none).get
      ⟨0, by decide⟩).total_event_loss = 10 := by
  have h := simulate_none_removes_all_events [⟨"A", 100⟩, ⟨"B", 90⟩]
    [⟨"e1", "A", "lockup", none, 10⟩] none
    ((simulate_no_events [⟨"A", 100⟩, ⟨"B", 90⟩]
      [⟨"e1", "A", "lockup", none, 10⟩] none none).get ⟨0, by decide⟩)
    (List.get_mem _ _ _)
  exact h.trans (by decide)

/-! ## Comparator and removal-filter claims -/

/-- C8: the comparator's output has an entry for exactly those scenarios
whose result contains a row for the target vehicle; a scenario without
such a row is omitted (the `IndexError` is swallowed), not an error. -/
theorem compare_scenarios_omission (scens : List (String × List ScenarioRow))
    (d name : String) :
    name ∈ (compare_scenarios scens d).map Prod.fst ↔
      ∃ rows, (name, rows) ∈ scens ∧ ∃ r ∈ rows, r.vehicle_id = d := by
  constructor
  · intro h
    rcases List.mem_map.mp h with ⟨p, hp, hname⟩
    rcases List.mem_filterMap.mp hp with ⟨a, ha, hfa⟩
    rcases hfind : a.2.find? (fun r => decide (r.vehicle_id = d)) with _ | r
    · rw [hfind] at hfa
      exact absurd hfa (by simp)
    · rw [hfind] at hfa
      have hr := List.mem_of_find?_eq_some hfind
      have hrd := List.find?_some hfind
      have ha1 : a.1 = name := by
        cases hfa
        exact hname
      refine ⟨a.2, ?_, r, hr, of_decide_eq_true hrd⟩
      rw [← ha1]
      exact ha
  · rintro ⟨rows, hmem, r, hr, hrd⟩
    have hsome : (rows.find? (fun r => decide (r.vehicle_id = d))).isSome := by
      rw [List.find?_isSome]
      exact ⟨r, hr, decide_eq_true hrd⟩
    rcases hfind : rows.find? (fun r => decide (r.vehicle_id = d)) with _ | r2
    · rw [hfind] at hsome
      exact absurd hsome (by simp)
    · refine List.mem_map.mpr ⟨(name,
        ⟨r2.adj_total_time, r2.adj_position, r2.total_event_loss⟩), ?_, rfl⟩
      refine List.mem_filterMap.mpr ⟨(name, rows), hmem, ?_⟩
      simp only [compare_scenarios, hfind, Option.map_some']

/-- C8 witness: scenario `s1` contains driver A and appears in the
output; the empty scenario `s2` is omitted. -/
theorem compare_scenarios_omission_witness :
    "s1" ∈ (compare_scenarios
        [("s1", [⟨"A", 100, 10, 90, 1, none, none⟩]), ("s2", [])] "A").map
      Prod.fst ∧
    "s2" ∉ (compare_scenarios
        [("s1", [⟨"A", 100, 10, 90, 1, none, none⟩]), ("s2", [])] "A").map
      Prod.fst := by
  constructor
  · exact (compare_scenarios_omission
      [("s1", [⟨"A", 100, 10, 90, 1, none, none⟩]), ("s2", [])] "A" "s1").mpr
      ⟨[⟨"A", 100, 10, 90, 1, none, none⟩], by decide,
        ⟨"A", 100, 10, 90, 1, none, none⟩, by decide, rfl⟩
  · intro h
    have hmp := (compare_scenarios_omission
      [("s1", [⟨"A", 100, 10, 90, 1, none, none⟩]), ("s2", [])] "A" "s2").mp h
    rcases hmp with ⟨rows, hmem, r, hr, _⟩
    have hrows : rows = [] := by
      rcases List.mem_cons.mp hmem with h1 | h1
      · have hfst : ("s2" : String) = "s1" := congrArg Prod.fst h1
        exact absurd hfst (by decide)
      · rcases List.mem_cons.mp h1 with h2 | h2
        · exact congrArg Prod.snd h2
        · exact absurd h2 (List.not_mem_nil _)
    subst hrows
    exact absurd hr (List.not_mem_nil r)

/-- C10: a filter criterion whose column is absent from the events table
is silently ignored: filtering with a non-null argument equals filtering
with the null argument whenever the corresponding column flag is off. -/
theorem filter_missing_column_ignored (t : EvTable)
    (v ty ro : Option String) :
    (t.hasRoleCol = false → ∀ r, filter_events_for_removal t v ty (some r) =
        filter_events_for_removal t v ty none) ∧
    (t.hasVehicleCol = false → ∀ w, filter_events_for_removal t (some w) ty ro =
        filter_events_for_removal t none ty ro) ∧
    (t.hasTypeCol = false → ∀ s, filter_events_for_removal t v (some s) ro =
        filter_events_for_removal t v none ro) := by
  refine ⟨?_, ?_, ?_⟩
  · intro h r
    simp [filter_events_for_removal, h]
  · intro h w
    simp [filter_events_for_removal, h]
  · intro h s
    simp [filter_events_for_removal, h]

/-- C10 witness: on a table with only the `event_type` column flag set,
each absent-column criterion is a no-op. -/
theorem filter_missing_column_ignored_witness :
    (filter_events_for_removal ⟨false, true, false, [⟨"e1", "A", "lockup", none, 1⟩]⟩
        none none (some "major_mistake") =
      filter_events_for_removal ⟨false, true, false, [⟨"e1", "A", "lockup", none, 1⟩]⟩
        none none none) ∧
    (filter_events_for_removal ⟨false, true, false, [⟨"e1", "A", "lockup", none, 1⟩]⟩
        (some "GR86-026-72") none none =
      filter_events_for_removal ⟨false, true, false, [⟨"e1", "A", "lockup", none, 1⟩]⟩
        none none none) :=
  ⟨(filter_missing_column_ignored
      ⟨false, true, false, [⟨"e1", "A", "lockup", none, 1⟩]⟩
      none none none).1 rfl "major_mistake",
   (filter_missing_column_ignored
      ⟨false, true, false, [⟨"e1", "A", "lockup", none, 1⟩]⟩
      none none none).2.1 rfl "GR86-026-72"⟩

/-! ## Event-catalog claim (C6) -/

theorem evLeB_eq_true_iff (a b : Event) :
    evLeB a b = true ↔
      b.severity_score < a.severity_score ∨
        (a.severity_score = b.severity_score ∧
          b.time_loss_estimate ≤ a.time_loss_estimate) := by
  simp [evLeB]

theorem evLeB_total (a b : Event) (h : evLeB a b = false) : evLeB b a = true := by
  simp only [evLeB, Bool.or_eq_false_iff, Bool.and_eq_false_iff,
    decide_eq_false_iff_not] at h
  rw [evLeB_eq_true_iff]
  rcases lt_trichotomy a.severity_score b.severity_score with hlt | heq | hgt
  · exact Or.inl hlt
  · rcases h.2 with h2 | h2
    · exact absurd heq h2
    · exact Or.inr ⟨heq.symm, le_of_not_le h2⟩
  · exact absurd hgt h.1

theorem evLeB_trans (a b c : Event) (h1 : evLeB a b = true)
    (h2 : evLeB b c = true) : evLeB a c = true := by
  rw [evLeB_eq_true_iff] at h1 h2 ⊢
  rcases h1 with h1 | ⟨h1e, h1t⟩
  · rcases h2 with h2 | ⟨h2e, h2t⟩
    · exact Or.inl (lt_trans h2 h1)
    · exact Or.inl (h2e ▸ h1)
  · rcases h2 with h2 | ⟨h2e, h2t⟩
    · exact Or.inl (h1e ▸ h2)
    · exact Or.inr ⟨h1e.trans h2e, le_trans h2t h1t⟩

theorem evLeB_of_eqs {a b : Event}
    (hs : a.severity_score = b.severity_score)
    (ht : a.time_loss_estimate = b.time_loss_estimate) : evLeB b a = true := by
  rw [evLeB_eq_true_iff]
  exact Or.inr ⟨hs.symm, le_of_eq ht⟩

theorem le_fst_of_mem_enumFrom :
    ∀ {n : ℕ} {l : List α} {p : ℕ × α}, p ∈ List.enumFrom n l → n ≤ p.1
  | _, [], _, h => absurd h (List.not_mem_nil _)
  | n, x :: xs, p, h => by
    rcases List.mem_cons.mp h with rfl | h
    · exact le_refl n
    · exact le_trans (Nat.le_succ n) (le_fst_of_mem_enumFrom h)

theorem pairwise_fst_lt_enumFrom :
    ∀ (n : ℕ) (l : List α), (List.enumFrom n l).Pairwise (fun a b => a.1 < b.1)
  | _, [] => List.Pairwise.nil
  | n, x :: xs => by
    refine List.pairwise_cons.mpr ⟨?_, pairwise_fst_lt_enumFrom (n + 1) xs⟩
    intro p hp
    exact lt_of_lt_of_le (Nat.lt_succ_self n) (le_fst_of_mem_enumFrom hp)

/-- C6: the catalog stably sorts the events descending on
`(severity_score, time_loss_estimate)` — the output is a permutation,
is pairwise descending, and events tied on both keys keep their original
detection order — then selects the top 6 and labels the first
`race_turning_point` and the next up to 3 `major_mistake`. -/
theorem raceKeyEvents_spec (l : List Event) :
    List.Perm (sortedEvents l) l ∧
    (sortedEvents l).Pairwise (fun a b =>
      b.severity_score < a.severity_score ∨
        (a.severity_score = b.severity_score ∧
          b.time_loss_estimate ≤ a.time_loss_estimate)) ∧
    (sortB (fun a b => evLeB a.2 b.2) l.enum).map Prod.snd = sortedEvents l ∧
    (sortB (fun a b => evLeB a.2 b.2) l.enum).Pairwise (fun a b =>
      (a.2.severity_score = b.2.severity_score ∧
        a.2.time_loss_estimate = b.2.time_loss_estimate) → a.1 < b.1) ∧
    (raceKeyEvents l).map Prod.fst = ((sortedEvents l).take 6).take 4 ∧
    (raceKeyEvents l).map Prod.snd =
      ("race_turning_point" :: List.replicate 3 "major_mistake").take
        (raceKeyEvents l).length := by
  refine ⟨perm_sortB evLeB l, ?_, ?_, ?_, ?_⟩
  · have h := pairwise_sortB evLeB evLeB_total evLeB_trans
      (fun _ _ => True) l (List.pairwise_iff_forall_sublist.mpr (fun _ => trivial))
    exact h.imp (fun hab => (evLeB_eq_true_iff _ _).mp hab.1)
  · have hmap := map_sortB (Prod.snd : ℕ × Event → Event) evLeB l.enum
    rw [hmap, List.enum, List.enumFrom_map_snd]
    rfl
  · have h := pairwise_sortB (fun a b : ℕ × Event => evLeB a.2 b.2)
      (fun a b hab => evLeB_total a.2 b.2 hab)
      (fun a b c h1 h2 => evLeB_trans a.2 b.2 c.2 h1 h2)
      (fun a b => a.1 < b.1) l.enum (pairwise_fst_lt_enumFrom 0 l)
    refine h.imp ?_
    rintro a b ⟨_, h2⟩
    intro heqs
    exact h2 (evLeB_of_eqs heqs.1 heqs.2)
  · rcases hs : sortedEvents l with _ | ⟨t, rest⟩
    · simp [raceKeyEvents, hs]
    · constructor
      · have hcomp : (Prod.fst ∘ fun e : Event => (e, "major_mistake")) = id := rfl
        simp [raceKeyEvents, hs, List.take_take, List.map_map, hcomp]
      · have hcomp : (Prod.snd ∘ fun e : Event => (e, "major_mistake")) =
            (fun _ : Event => "major_mistake") := rfl
        simp only [raceKeyEvents, hs, List.take_succ_cons, List.map_cons,
          List.map_map, List.length_cons, List.length_map, List.length_take,
          List.take_replicate, hcomp, List.map_const', inf_eq_min]
        rw [inf_eq_left.mpr (inf_le_left : 3 ⊓ (5 ⊓ rest.length) ≤ 3)]

/-! ## Lap-level detector: history requirements (C4) -/

theorem paceStep_nil (r : LapRow) (ev : Event) :
    paceStep [] r ≠ .ok (some ev) := by
  intro h
  rcases hl : r.lap with _ | lapN
  · simp [paceStep, hl] at h
  · simp [paceStep, hl, rollMean] at h

theorem paceAux_no_events :
    ∀ (s : List LapRow) (prev : List LapRow),
      s.Pairwise (fun a b => a.vehicle_id ≠ b.vehicle_id) →
      (∀ h0 ∈ prev.head?, ∀ x ∈ s, h0.vehicle_id ≠ x.vehicle_id) →
      ∀ evs, paceAux prev s = .ok evs → evs = []
  | [], _, _, _, evs, h => by
    simp only [paceAux] at h
    cases h
    rfl
  | r :: rest, prev, hpw, hhd, evs, h => by
    simp only [paceAux] at h
    have hp : (match prev.head? with
        | some h0 => if h0.vehicle_id = r.vehicle_id then prev else []
        | none => prev) = ([] : List LapRow) := by
      rcases hh : prev.head? with _ | h0
      · simpa using List.head?_eq_none_iff.mp hh
      · have := hhd h0 (by rw [hh]; rfl) r (List.mem_cons_self r rest)
        simp [this]
    rw [hp] at h
    rcases hps : paceStep [] r with e | oev
    · rw [hps] at h
      cases h
    · rw [hps] at h
      rcases oev with _ | ev
      · rcases hpa : paceAux (r :: []) rest with e2 | evs2
        · rw [hpa] at h
          cases h
        · rw [hpa] at h
          have hrec := paceAux_no_events rest (r :: [])
            (List.pairwise_cons.mp hpw).2
            (by
              intro h0 hh0 x hx
              have hh : r = h0 := by simpa using hh0
              subst hh
              exact (List.pairwise_cons.mp hpw).1 x hx)
            evs2 hpa
          subst hrec
          cases h
          rfl
      · exact absurd hps (paceStep_nil r ev)

theorem groupRunsAux_singletons :
    ∀ (s : List LapRow) (r : LapRow),
      (r :: s).Pairwise (fun a b => a.vehicle_id ≠ b.vehicle_id) →
      ∀ g ∈ groupRunsAux [r] s, g.length = 1
  | [], r, _, g, hg => by
    simp only [groupRunsAux] at hg
    rcases List.mem_cons.mp hg with rfl | hg
    · rfl
    · exact absurd hg (List.not_mem_nil _)
  | x :: rest, r, hpw, g, hg => by
    simp only [groupRunsAux, List.head?] at hg
    rw [if_neg ((List.pairwise_cons.mp hpw).1 x (List.mem_cons_self x rest))] at hg
    rcases List.mem_cons.mp hg with rfl | hg
    · rfl
    · exact groupRunsAux_singletons rest x
        ((List.pairwise_cons.mp hpw).2) g hg

theorem degrPass_singletons :
    ∀ (gs : List (List LapRow)), (∀ g ∈ gs, g.length = 1) →
      ∀ evs, degrPass gs = .ok evs → evs = []
  | [], _, evs, h => by
    simp only [degrPass] at h
    cases h
    rfl
  | g :: gs, hlen, evs, h => by
    simp only [degrPass] at h
    have hstep : degrStep g = .ok none := by
      have h1 : g.length < 3 := by
        rw [hlen g (List.mem_cons_self g gs)]
        omega
      simp [degrStep, h1]
    rw [hstep] at h
    rcases hgs : degrPass gs with e | evs2
    · rw [hgs] at h
      cases h
    · rw [hgs] at h
      have := degrPass_singletons gs
        (fun g2 hg2 => hlen g2 (List.mem_cons_of_mem g hg2)) evs2 hgs
      subst this
      cases h
      rfl

/-- C4 (amended): a pace_collapse needs at least ONE prior lap for its
vehicle, not three; the trailing mean is computed with `min_periods=1`.
With zero prior laps the pace rule cannot fire (empty trailing window),
and on a table where every vehicle has a single lap the whole lap-level
detector emits no event at all; the counterexample shows pace_collapse
firing with exactly one prior lap. -/
theorem pace_collapse_needs_one_prior_lap :
    (∀ (r : LapRow) (ev : Event), paceStep [] r ≠ .ok (some ev)) ∧
    (∀ rows : List LapRow,
      rows.Pairwise (fun a b => a.vehicle_id ≠ b.vehicle_id) →
      ∀ evs, detect_lap_level_events rows = .ok evs → evs = []) := by
  refine ⟨paceStep_nil, ?_⟩
  intro rows hpw evs h
  have hs : (sortB lapRowLe rows).Pairwise
      (fun a b => a.vehicle_id ≠ b.vehicle_id) :=
    ((perm_sortB lapRowLe rows).pairwise_iff
      (fun hne => Ne.symm hne)).mpr hpw
  simp only [detect_lap_level_events] at h
  rcases hpa : paceAux [] (sortB lapRowLe rows) with e | pace
  · rw [hpa] at h
    cases h
  · rw [hpa] at h
    have hpace : pace = [] :=
      paceAux_no_events (sortB lapRowLe rows) [] hs (by simp) pace hpa
    rcases hdp : degrPass (groupRuns (sortB lapRowLe rows)) with e | degr
    · rw [hdp] at h
      cases h
    · rw [hdp] at h
      have hdegr : degr = [] := by
        rcases hsl : sortB lapRowLe rows with _ | ⟨r, rest⟩
        · rw [hsl] at hdp
          simp only [groupRuns, degrPass] at hdp
          cases hdp
          rfl
        · rw [hsl] at hdp hs
          exact degrPass_singletons _ (groupRunsAux_singletons rest r hs)
            degr hdp
      subst hpace
      subst hdegr
      cases h
      rfl

unseal Rat.add Rat.sub Rat.mul Rat.inv Rat.ofScientific in
/-- C4 witness: on a single-lap table (zero prior laps) the lap-level
detector emits nothing. -/
theorem pace_collapse_needs_one_prior_lap_witness :
    detect_lap_level_events [⟨"A", some 1, some 1, some 90, some 1, some 1⟩] =
      .ok [] ∧ ([] : List Event) = [] :=
  ⟨by decide,
    pace_collapse_needs_one_prior_lap.2
      [⟨"A", some 1, some 1, some 90, some 1, some 1⟩]
      (List.pairwise_singleton _ _) [] (by decide)⟩

unseal Rat.add Rat.sub Rat.mul Rat.inv Rat.ofScientific in
/-- C4 counterexample: vehicle A has laps 1 and 2; lap 2 has only ONE
prior lap of history (fewer than 3), yet a pace_collapse event is
emitted for it (lap 2 is 95s against the 1-lap trailing mean 90s, with
both G peaks sufficiently below their trailing means). -/
theorem pace_collapse_counterexample :
    detect_lap_level_events
        [⟨"A", some 1, some 1, some 90, some (14/10), some (11/10)⟩,
         ⟨"A", some 2, some 2, some 95, some 1, some (8/10)⟩] =
      .ok [⟨"A", 2, 2, "pace_collapse", 7/10, 5, none, false, none, none, none⟩] := by
  decide

/-! ## Detector exception behaviour (C7) -/

theorem paceStep_ok (prev : List LapRow) (r : LapRow)
    (hl : r.lap ≠ none) (he : r.end_time ≠ none) :
    ∃ o, paceStep prev r = .ok o := by
  rcases hlap : r.lap with _ | lapN
  · exact absurd hlap hl
  · rcases hend : r.end_time with _ | ts
    · exact absurd hend he
    · simp only [paceStep, hlap, hend]
      rcases h1 : rollMean ((prev.take 3).map (fun x => x.lap_time_seconds))
        with _ | m
      · rw [h1]
        exact ⟨none, rfl⟩
      · rw [h1]
        rcases h2 : r.lap_time_seconds with _ | y
        · exact ⟨none, rfl⟩
        · dsimp only
          split
          · exact ⟨_, rfl⟩
          · exact ⟨none, rfl⟩

theorem paceAux_ok :
    ∀ (s : List LapRow) (prev : List LapRow),
      (∀ r ∈ s, r.lap ≠ none ∧ r.end_time ≠ none) →
      ∃ evs, paceAux prev s = .ok evs
  | [], _, _ => ⟨[], rfl⟩
  | r :: rest, prev, hok => by
    simp only [paceAux]
    rcases paceStep_ok (match prev.head? with
        | some h0 => if h0.vehicle_id = r.vehicle_id then prev else []
        | none => prev) r
        (hok r (List.mem_cons_self r rest)).1
        (hok r (List.mem_cons_self r rest)).2 with ⟨o, ho⟩
    rw [ho]
    rcases paceAux_ok rest (r :: (match prev.head? with
        | some h0 => if h0.vehicle_id = r.vehicle_id then prev else []
        | none => prev))
      (fun x hx => hok x (List.mem_cons_of_mem r hx)) with ⟨evs, hevs⟩
    rw [hevs]
    exact ⟨o.toList ++ evs, rfl⟩

theorem degrStep_ok (g : List LapRow)
    (hok : ∀ r ∈ g, r.lap ≠ none ∧ r.end_time ≠ none) :
    ∃ o, degrStep g = .ok o := by
  simp only [degrStep]
  split
  · exact ⟨none, rfl⟩
  · rcases h1 : slopeLSQ g (fun x => x.lap_time_seconds) with _ | s
    · exact ⟨none, rfl⟩
    · rcases h2 : slopeLSQ g (fun x => x.peak_lat_G) with _ | ls
      · exact ⟨none, rfl⟩
      · dsimp only
        split
        · rcases hlast : g.getLast? with _ | last
          · exact ⟨none, rfl⟩
          · have hmem : last ∈ g :=
              List.mem_of_mem_getLast? (by rw [hlast]; rfl)
            dsimp only
            rcases hlap : last.lap with _ | lapN
            · exact absurd hlap (hok last hmem).1
            · rcases hend : last.end_time with _ | ts
              · exact absurd hend (hok last hmem).2
              · exact ⟨_, rfl⟩
        · exact ⟨none, rfl⟩

theorem mem_of_mem_groupRunsAux :
    ∀ (s : List LapRow) (cur : List LapRow) (g : List LapRow),
      g ∈ groupRunsAux cur s → ∀ x ∈ g, x ∈ cur ∨ x ∈ s
  | [], cur, g, hg, x, hx => by
    simp only [groupRunsAux] at hg
    rcases List.mem_cons.mp hg with rfl | hg
    · exact Or.inl (List.mem_reverse.mp hx)
    · exact absurd hg (List.not_mem_nil _)
  | r :: rest, cur, g, hg, x, hx => by
    simp only [groupRunsAux] at hg
    rcases hh : cur.head? with _ | h0
    · rw [hh] at hg
      rcases mem_of_mem_groupRunsAux rest [r] g hg x hx with h | h
      · rcases List.mem_cons.mp h with rfl | h
        · exact Or.inr (List.mem_cons_self x rest)
        · exact absurd h (List.not_mem_nil _)
      · exact Or.inr (List.mem_cons_of_mem r h)
    · rw [hh] at hg
      dsimp only at hg
      by_cases heq : h0.vehicle_id = r.vehicle_id
      · rw [if_pos heq] at hg
        rcases mem_of_mem_groupRunsAux rest (r :: cur) g hg x hx with h | h
        · rcases List.mem_cons.mp h with rfl | h
          · exact Or.inr (List.mem_cons_self x rest)
          · exact Or.inl h
        · exact Or.inr (List.mem_cons_of_mem r h)
      · rw [if_neg heq] at hg
        rcases List.mem_cons.mp hg with rfl | hg
        · exact Or.inl (List.mem_reverse.mp hx)
        · rcases mem_of_mem_groupRunsAux rest [r] g hg x hx with h | h
          · rcases List.mem_cons.mp h with rfl | h
            · exact Or.inr (List.mem_cons_self x rest)
            · exact absurd h (List.not_mem_nil _)
          · exact Or.inr (List.mem_cons_of_mem r h)

theorem mem_of_mem_groupRuns {s : List LapRow} {g : List LapRow}
    (hg : g ∈ groupRuns s) : ∀ x ∈ g, x ∈ s := by
  intro x hx
  rcases s with _ | ⟨r, rest⟩
  · simp [groupRuns] at hg
  · rcases mem_of_mem_groupRunsAux rest [r] g hg x hx with h | h
    · rcases List.mem_cons.mp h with rfl | h
      · exact List.mem_cons_self x rest
      · exact absurd h (List.not_mem_nil _)
    · exact List.mem_cons_of_mem r h

theorem degrPass_ok :
    ∀ (gs : List (List LapRow)),
      (∀ g ∈ gs, ∀ r ∈ g, r.lap ≠ none ∧ r.end_time ≠ none) →
      ∃ evs, degrPass gs = .ok evs
  | [], _ => ⟨[], rfl⟩
  | g :: gs, hok => by
    simp only [degrPass]
    rcases degrStep_ok g (hok g (List.mem_cons_self g gs)) with ⟨o, ho⟩
    rw [ho]
    rcases degrPass_ok gs (fun g2 hg2 => hok g2 (List.mem_cons_of_mem g hg2))
      with ⟨evs, hevs⟩
    rw [hevs]
    exact ⟨o.toList ++ evs, rfl⟩

/-- C7 (amended): missing or invalid telemetry channel values only
disable the rule that needs them, but a missing (`NaN`) lap number
raises in both detectors — `int(row['lap'])` runs before any rule guard
— and a `NaT` end time raises when a lap-level event fires.  Both
detectors return a list without raising whenever every `per_lap` row has
a numeric lap (and, for the lap-level detector, a valid end time). -/
theorem detectors_ok_on_valid_laps :
    (∀ rows : List LapRow,
      (∀ r ∈ rows, r.lap ≠ none ∧ r.end_time ≠ none) →
      ∃ evs, detect_lap_level_events rows = .ok evs) ∧
    (∀ (files : String → ℤ → Option (List TeleSample)) (rows : List LapRow),
      (∀ r ∈ rows, r.lap ≠ none) →
      ∃ evs, detect_telemetry_events files rows = .ok evs) := by
  constructor
  · intro rows hok
    have hok2 : ∀ r ∈ sortB lapRowLe rows, r.lap ≠ none ∧ r.end_time ≠ none :=
      fun r hr => hok r (mem_sortB.mp hr)
    simp only [detect_lap_level_events]
    rcases paceAux_ok (sortB lapRowLe rows) [] hok2 with ⟨pace, hpace⟩
    rw [hpace]
    rcases degrPass_ok (groupRuns (sortB lapRowLe rows))
      (fun g hg r hr => hok2 r (mem_of_mem_groupRuns hg r hr)) with ⟨degr, hdegr⟩
    rw [hdegr]
    exact ⟨pace ++ degr, rfl⟩
  · intro files rows hok
    induction rows with
    | nil => exact ⟨[], rfl⟩
    | cons r rest ih =>
      simp only [detect_telemetry_events]
      rcases hlap : r.lap with _ | lapN
      · exact absurd hlap (hok r (List.mem_cons_self r rest)).elim
      · rcases ih (fun x hx => hok x (List.mem_cons_of_mem r hx)) with ⟨evs, hevs⟩
        rw [hevs]
        exact ⟨_, rfl⟩

unseal Rat.add Rat.sub Rat.mul Rat.inv Rat.ofScientific in
/-- C7 witness: on a single well-formed row (numeric lap, valid end
time) both detectors return without raising. -/
theorem detectors_ok_on_valid_laps_witness :
    (detect_lap_level_events
      [⟨"A", some 1, some 1, some 90, some 1, some 1⟩]).isOk = true ∧
    (detect_telemetry_events (fun _ _ => none)
      [⟨"A", some 1, some 1, some 90, some 1, some 1⟩]).isOk = true := by
  constructor
  · rcases detectors_ok_on_valid_laps.1
      [⟨"A", some 1, some 1, some 90, some 1, some 1⟩]
      (by intro r hr; rcases List.mem_cons.mp hr with rfl | h
          · exact ⟨by decide, by decide⟩
          · exact absurd h (List.not_mem_nil _)) with ⟨evs, hevs⟩
    rw [hevs]
    rfl
  · rcases detectors_ok_on_valid_laps.2 (fun _ _ => none)
      [⟨"A", some 1, some 1, some 90, some 1, some 1⟩]
      (by intro r hr; rcases List.mem_cons.mp hr with rfl | h
          · exact by decide
          · exact absurd h (List.not_mem_nil _)) with ⟨evs, hevs⟩
    rw [hevs]
    rfl

unseal Rat.add Rat.sub Rat.mul Rat.inv Rat.ofScientific in
/-- C7 counterexample: a lap-record row whose `lap` cell is `NaN` makes
the lap-level detector raise (`int(row['lap'])` fails) instead of
skipping the rule, refuting the never-raises claim. -/
theorem detector_raises_counterexample :
    detect_lap_level_events [⟨"A", none, some 1, some 90, some 1, some 1⟩] =
      .error "cannot convert NaN lap to int" := by decide

/-! ## Characterizations of the sample-level rules -/

theorem lockEv_eq_some {v : String} {n : ℤ} {i : ℕ} {m3 m2 m1 cur : TeleSample}
    {e : Event} (h : lockEv v n i m3 m2 m1 cur = some e) :
    ∃ pb0 pb2 sp3 sp0 ac3 ac0 : ℚ,
      cur.pbrake_f = some pb0 ∧ m2.pbrake_f = some pb2 ∧
      m3.speed = some sp3 ∧ cur.speed = some sp0 ∧
      m3.accy_can = some ac3 ∧ cur.accy_can = some ac0 ∧
      pb0 - pb2 > 10 ∧ sp3 - sp0 > 6 ∧ ac3 - ac0 > 3/10 ∧
      e.event_type = "lockup" ∧ e.timestamp = i ∧
      e.severity_score =
        min 1 ((|pb0 - pb2| / 50 + (sp3 - sp0) / 10 + (ac3 - ac0) / 2) / 3) ∧
      e.time_loss_estimate = (sp3 - sp0) / 9 := by
  unfold lockEv at h
  rcases h1 : cur.pbrake_f with _ | pb0
  · rw [h1] at h
    exact Option.noConfusion h
  rw [h1] at h
  rcases h2 : m2.pbrake_f with _ | pb2
  · rw [h2] at h
    exact Option.noConfusion h
  rw [h2] at h
  dsimp only at h
  by_cases hb : pb0 - pb2 > 10
  · rw [if_pos (decide_eq_true hb)] at h
    rcases h3 : m3.speed with _ | sp3
    · rw [h3] at h
      exact Option.noConfusion h
    rw [h3] at h
    rcases h4 : cur.speed with _ | sp0
    · rw [h4] at h
      exact Option.noConfusion h
    rw [h4] at h
    rcases h5 : m3.accy_can with _ | ac3
    · rw [h5] at h
      exact Option.noConfusion h
    rw [h5] at h
    rcases h6 : cur.accy_can with _ | ac0
    · rw [h6] at h
      exact Option.noConfusion h
    rw [h6] at h
    dsimp only at h
    by_cases hsa : (decide (sp3 - sp0 > 6) && decide (ac3 - ac0 > 3/10)) = true
    · rw [if_pos hsa] at h
      injection h with hrec
      subst hrec
      rw [Bool.and_eq_true, decide_eq_true_eq, decide_eq_true_eq] at hsa
      exact ⟨pb0, pb2, sp3, sp0, ac3, ac0, rfl, rfl, rfl, rfl, rfl, rfl, hb,
        hsa.1, hsa.2, rfl, rfl, rfl, rfl⟩
    · rw [if_neg hsa] at h
      exact Option.noConfusion h
  · rw [if_neg (fun hc => hb (of_decide_eq_true hc))] at h
    exact Option.noConfusion h

theorem spinEv_eq_some {v : String} {n : ℤ} {i : ℕ} {m3 m2 m1 cur : TeleSample}
    {e : Event} (h : spinEv v n i m3 m2 m1 cur = some e) :
    ∃ s0 s2 ac0 ac3 sp3 sp0 : ℚ,
      cur.steering_angle = some s0 ∧ m2.steering_angle = some s2 ∧
      cur.accy_can = some ac0 ∧ m3.accy_can = some ac3 ∧
      m3.speed = some sp3 ∧ cur.speed = some sp0 ∧
      |s0 - s2| > 20 ∧ ac0 - ac3 > 3/2 ∧ sp3 - sp0 > 4 ∧
      e.event_type = "near_spin" ∧ e.timestamp = i ∧
      e.severity_score =
        min 1 ((|s0 - s2| / 40 + (ac0 - ac3) / 3 + (sp3 - sp0) / 10) / 3) ∧
      e.time_loss_estimate = (sp3 - sp0) / 9 := by
  unfold spinEv at h
  rcases h1 : cur.steering_angle with _ | s0
  · rw [h1] at h
    exact Option.noConfusion h
  rw [h1] at h
  rcases h2 : m2.steering_angle with _ | s2
  · rw [h2] at h
    exact Option.noConfusion h
  rw [h2] at h
  dsimp only at h
  by_cases hst : |s0 - s2| > 20
  · rw [if_pos (decide_eq_true hst)] at h
    rcases h3 : cur.accy_can with _ | ac0
    · rw [h3] at h
      exact Option.noConfusion h
    rw [h3] at h
    rcases h4 : m3.accy_can with _ | ac3
    · rw [h4] at h
      exact Option.noConfusion h
    rw [h4] at h
    rcases h5 : m3.speed with _ | sp3
    · rw [h5] at h
      exact Option.noConfusion h
    rw [h5] at h
    rcases h6 : cur.speed with _ | sp0
    · rw [h6] at h
      exact Option.noConfusion h
    rw [h6] at h
    dsimp only at h
    by_cases hsa : (decide (ac0 - ac3 > 3/2) && decide (sp3 - sp0 > 4)) = true
    · rw [if_pos hsa] at h
      injection h with hrec
      subst hrec
      rw [Bool.and_eq_true, decide_eq_true_eq, decide_eq_true_eq] at hsa
      exact ⟨s0, s2, ac0, ac3, sp3, sp0, rfl, rfl, rfl, rfl, rfl, rfl, hst,
        hsa.1, hsa.2, rfl, rfl, rfl, rfl⟩
    · rw [if_neg hsa] at h
      exact Option.noConfusion h
  · rw [if_neg (fun hc => hst (of_decide_eq_true hc))] at h
    exact Option.noConfusion h

theorem underEv_eq_some {v : String} {n : ℤ} {i : ℕ} {m3 m2 m1 cur : TeleSample}
    {e : Event} (h : underEv v n i m3 m2 m1 cur = some e) :
    ∃ s0 s3 ac0 ac3 sp3 sp0 : ℚ,
      cur.steering_angle = some s0 ∧ m3.steering_angle = some s3 ∧
      cur.accy_can = some ac0 ∧ m3.accy_can = some ac3 ∧
      m3.speed = some sp3 ∧ cur.speed = some sp0 ∧
      s0 - s3 > 8 ∧ |ac0 - ac3| < 2/10 ∧ sp3 - sp0 > 3 ∧
      e.event_type = "understeer" ∧ e.timestamp = i ∧
      e.severity_score = min 1 ((|s0 - s3| / 20 + (sp3 - sp0) / 10) / 2) ∧
      e.time_loss_estimate = (sp3 - sp0) / 9 := by
  unfold underEv at h
  rcases h1 : cur.steering_angle with _ | s0
  · rw [h1] at h
    exact Option.noConfusion h
  rw [h1] at h
  rcases h2 : m3.steering_angle with _ | s3
  · rw [h2] at h
    exact Option.noConfusion h
  rw [h2] at h
  dsimp only at h
  by_cases hst : s0 - s3 > 8
  · rw [if_pos (decide_eq_true hst)] at h
    rcases h3 : cur.accy_can with _ | ac0
    · rw [h3] at h
      exact Option.noConfusion h
    rw [h3] at h
    rcases h4 : m3.accy_can with _ | ac3
    · rw [h4] at h
      exact Option.noConfusion h
    rw [h4] at h
    dsimp only at h
    by_cases hac : |ac0 - ac3| < 2/10
    · rw [if_pos (decide_eq_true hac)] at h
      rcases h5 : m3.speed with _ | sp3
      · rw [h5] at h
        exact Option.noConfusion h
      rw [h5] at h
      rcases h6 : cur.speed with _ | sp0
      · rw [h6] at h
        exact Option.noConfusion h
      rw [h6] at h
      dsimp only at h
      by_cases hsp : sp3 - sp0 > 3
      · rw [if_pos (decide_eq_true hsp)] at h
        injection h with hrec
        subst hrec
        exact ⟨s0, s3, ac0, ac3, sp3, sp0, rfl, rfl, rfl, rfl, rfl, rfl, hst,
          hac, hsp, rfl, rfl, rfl, rfl⟩
      · rw [if_neg (fun hc => hsp (of_decide_eq_true hc))] at h
        exact Option.noConfusion h
    · rw [if_neg (fun hc => hac (of_decide_eq_true hc))] at h
      exact Option.noConfusion h
  · rw [if_neg (fun hc => hst (of_decide_eq_true hc))] at h
    exact Option.noConfusion h

theorem shiftEv_eq_some {v : String} {n : ℤ} {i : ℕ} {m3 m2 m1 cur : TeleSample}
    {e : Event} (h : shiftEv v n i m3 m2 m1 cur = some e) :
    ∃ g0 g1 n1 n0 sp0 sp1 : ℚ,
      cur.gear = some g0 ∧ m1.gear = some g1 ∧
      m1.nmot = some n1 ∧ cur.nmot = some n0 ∧
      cur.speed = some sp0 ∧ m1.speed = some sp1 ∧
      g0 ≠ g1 ∧ n1 - n0 > 1200 ∧ |sp0 - sp1| < 3/2 ∧
      e.event_type = "missed_shift" ∧ e.timestamp = i ∧
      e.severity_score = min 1 ((n1 - n0) / 4000) ∧
      e.time_loss_estimate = 1/2 := by
  unfold shiftEv at h
  rcases h1 : cur.gear with _ | g0
  · rw [h1] at h
    exact Option.noConfusion h
  rw [h1] at h
  rcases h2 : m1.gear with _ | g1
  · rw [h2] at h
    exact Option.noConfusion h
  rw [h2] at h
  dsimp only at h
  by_cases hg : g0 ≠ g1
  · rw [if_pos (decide_eq_true hg)] at h
    rcases h3 : m1.nmot with _ | n1
    · rw [h3] at h
      exact Option.noConfusion h
    rw [h3] at h
    rcases h4 : cur.nmot with _ | n0
    · rw [h4] at h
      exact Option.noConfusion h
    rw [h4] at h
    dsimp only at h
    by_cases hn : n1 - n0 > 1200
    · rw [if_pos (decide_eq_true hn)] at h
      rcases h5 : cur.speed with _ | sp0
      · rw [h5] at h
        exact Option.noConfusion h
      rw [h5] at h
      rcases h6 : m1.speed with _ | sp1
      · rw [h6] at h
        exact Option.noConfusion h
      rw [h6] at h
      dsimp only at h
      by_cases hsp : |sp0 - sp1| < 3/2
      · rw [if_pos (decide_eq_true hsp)] at h
        injection h with hrec
        subst hrec
        exact ⟨g0, g1, n1, n0, sp0, sp1, rfl, rfl, rfl, rfl, rfl, rfl, hg,
          hn, hsp, rfl, rfl, rfl, rfl⟩
      · rw [if_neg (fun hc => hsp (of_decide_eq_true hc))] at h
        exact Option.noConfusion h
    · rw [if_neg (fun hc => hn (of_decide_eq_true hc))] at h
      exact Option.noConfusion h
  · rw [if_neg (fun hc => hg (of_decide_eq_true hc))] at h
    exact Option.noConfusion h

/-- The rule chain fires exactly one of the four rules. -/
theorem sampleStep_eq_some {v : String} {n : ℤ} {i : ℕ}
    {m3 m2 m1 cur : TeleSample} {e : Event}
    (h : sampleStep v n i m3 m2 m1 cur = some e) :
    lockEv v n i m3 m2 m1 cur = some e ∨ spinEv v n i m3 m2 m1 cur = some e ∨
      underEv v n i m3 m2 m1 cur = some e ∨
      shiftEv v n i m3 m2 m1 cur = some e := by
  unfold sampleStep at h
  rcases hl : lockEv v n i m3 m2 m1 cur with _ | e1
  · rw [hl] at h
    dsimp only [Option.orElse] at h
    rcases hs : spinEv v n i m3 m2 m1 cur with _ | e2
    · rw [hs] at h
      dsimp only [Option.orElse] at h
      rcases hu : underEv v n i m3 m2 m1 cur with _ | e3
      · rw [hu] at h
        dsimp only [Option.orElse] at h
        exact Or.inr (Or.inr (Or.inr h))
      · rw [hu] at h
        dsimp only [Option.orElse] at h
        injection h with h2
        subst h2
        exact Or.inr (Or.inr (Or.inl rfl))
    · rw [hs] at h
      dsimp only [Option.orElse] at h
      injection h with h2
      subst h2
      exact Or.inr (Or.inl rfl)
  · rw [hl] at h
    dsimp only [Option.orElse] at h
    injection h with h2
    subst h2
    exact Or.inl rfl

/-- Lockup is the first rule tried: when it matches, its event is the
chain's output. -/
theorem sampleStep_of_lockEv {v : String} {n : ℤ} {i : ℕ}
    {m3 m2 m1 cur : TeleSample} {e : Event}
    (h : lockEv v n i m3 m2 m1 cur = some e) :
    sampleStep v n i m3 m2 m1 cur = some e := by
  unfold sampleStep
  rw [h]
  rfl

/-- The lockup rule fires whenever its (corrected) conditions hold. -/
theorem lockEv_of_cond {v : String} {n : ℤ} {i : ℕ} {m3 m2 m1 cur : TeleSample}
    {pb0 pb2 sp3 sp0 ac3 ac0 : ℚ}
    (h1 : cur.pbrake_f = some pb0) (h2 : m2.pbrake_f = some pb2)
    (h3 : m3.speed = some sp3) (h4 : cur.speed = some sp0)
    (h5 : m3.accy_can = some ac3) (h6 : cur.accy_can = some ac0)
    (hb : pb0 - pb2 > 10) (hs : sp3 - sp0 > 6) (ha : ac3 - ac0 > 3/10) :
    ∃ e, lockEv v n i m3 m2 m1 cur = some e ∧ e.event_type = "lockup" := by
  unfold lockEv
  rw [h1, h2]
  dsimp only
  rw [if_pos (decide_eq_true hb), h3, h4, h5, h6]
  dsimp only
  rw [if_pos (by
    rw [Bool.and_eq_true]
    exact ⟨decide_eq_true hs, decide_eq_true ha⟩)]
  exact ⟨_, rfl, rfl⟩

/-! ## Severity and time-loss bounds (C5) -/

theorem meanQ_nonneg (l : List ℚ) (h : ∀ x ∈ l, 0 ≤ x) : 0 ≤ meanQ l :=
  div_nonneg (List.sum_nonneg h) (Nat.cast_nonneg _)

theorem clippedDiffsAux_nonneg :
    ∀ (prev : Option ℚ) (l : List (Option ℚ)) (x : ℚ),
      x ∈ clippedDiffsAux prev l → 0 ≤ x
  | _, [], _, hx => absurd hx (List.not_mem_nil _)
  | prev, z :: zs, x, hx => by
    rcases List.mem_cons.mp hx with rfl | hx
    · rcases prev with _ | a <;> rcases z with _ | b <;>
        first
          | exact le_refl 0
          | exact le_max_left 0 _
    · exact clippedDiffsAux_nonneg z zs x hx

theorem clippedDiffs_nonneg :
    ∀ (l : List (Option ℚ)) (x : ℚ), x ∈ clippedDiffs l → 0 ≤ x
  | [], _, hx => absurd hx (List.not_mem_nil _)
  | y :: rest, x, hx => by
    rcases List.mem_cons.mp hx with rfl | hx
    · exact le_refl 0
    · exact clippedDiffsAux_nonneg y rest x hx

theorem sampleStep_bounds {v : String} {n : ℤ} {i : ℕ}
    {m3 m2 m1 cur : TeleSample} {e : Event}
    (h : sampleStep v n i m3 m2 m1 cur = some e) :
    0 ≤ e.severity_score ∧ e.severity_score ≤ 1 ∧
      0 ≤ e.time_loss_estimate := by
  rcases sampleStep_eq_some h with hl | hs | hu | hsh
  · rcases lockEv_eq_some hl with
      ⟨pb0, pb2, sp3, sp0, ac3, ac0, _, _, _, _, _, _, hb, hsp, hac, _, _,
        hsev, htl⟩
    refine ⟨?_, ?_, ?_⟩
    · rw [hsev]
      refine le_min (by norm_num) ?_
      have habs := abs_nonneg (pb0 - pb2)
      nlinarith
    · rw [hsev]
      exact min_le_left _ _
    · rw [htl]
      nlinarith
  · rcases spinEv_eq_some hs with
      ⟨s0, s2, ac0, ac3, sp3, sp0, _, _, _, _, _, _, hst, hac, hsp, _, _,
        hsev, htl⟩
    refine ⟨?_, ?_, ?_⟩
    · rw [hsev]
      refine le_min (by norm_num) ?_
      have habs := abs_nonneg (s0 - s2)
      nlinarith
    · rw [hsev]
      exact min_le_left _ _
    · rw [htl]
      nlinarith
  · rcases underEv_eq_some hu with
      ⟨s0, s3, ac0, ac3, sp3, sp0, _, _, _, _, _, _, hst, hac, hsp, _, _,
        hsev, htl⟩
    refine ⟨?_, ?_, ?_⟩
    · rw [hsev]
      refine le_min (by norm_num) ?_
      have habs := abs_nonneg (s0 - s3)
      nlinarith
    · rw [hsev]
      exact min_le_left _ _
    · rw [htl]
      nlinarith
  · rcases shiftEv_eq_some hsh with
      ⟨g0, g1, n1, n0, sp0, sp1, _, _, _, _, _, _, hg, hn, hsp, _, _,
        hsev, htl⟩
    refine ⟨?_, ?_, ?_⟩
    · rw [hsev]
      exact le_min (by norm_num) (by nlinarith)
    · rw [hsev]
      exact min_le_left _ _
    · rw [htl]
      norm_num

theorem teleAux_bounds (v : String) (n : ℤ) :
    ∀ (rest : List TeleSample) (idx : ℕ) (m3 m2 m1 : TeleSample) (e : Event),
      e ∈ teleAux v n idx m3 m2 m1 rest →
      0 ≤ e.severity_score ∧ e.severity_score ≤ 1 ∧ 0 ≤ e.time_loss_estimate
  | [], _, _, _, _, _, he => absurd he (List.not_mem_nil _)
  | cur :: rest, idx, m3, m2, m1, e, he => by
    simp only [teleAux] at he
    rcases List.mem_append.mp he with h | h
    · have hss : sampleStep v n idx m3 m2 m1 cur = some e := by
        rcases hstep : sampleStep v n idx m3 m2 m1 cur with _ | e2
        · rw [hstep] at h
          exact absurd h (List.not_mem_nil _)
        · rw [hstep] at h
          rcases List.mem_singleton.mp h with rfl
          rfl
      exact sampleStep_bounds hss
    · exact teleAux_bounds v n rest (idx + 1) m2 m1 cur e h

theorem detectTeleLap_bounds {v : String} {n : ℤ} {samples : List TeleSample}
    {e : Event} (he : e ∈ detectTeleLap v n samples) :
    0 ≤ e.severity_score ∧ e.severity_score ≤ 1 ∧
      0 ≤ e.time_loss_estimate := by
  rcases samples with _ | ⟨s0, _ | ⟨s1, _ | ⟨s2, rest⟩⟩⟩
  · exact absurd he (List.not_mem_nil _)
  · exact absurd he (List.not_mem_nil _)
  · exact absurd he (List.not_mem_nil _)
  · exact teleAux_bounds v n rest 3 s0 s1 s2 e he

theorem paceStep_some_bounds {prev : List LapRow} {r : LapRow} {e : Event}
    (h : paceStep prev r = .ok (some e)) :
    0 ≤ e.severity_score ∧ e.severity_score ≤ 1 ∧
      0 ≤ e.time_loss_estimate := by
  unfold paceStep at h
  rcases hlap : r.lap with _ | lapN
  · rw [hlap] at h
    exact Except.noConfusion h
  rw [hlap] at h
  dsimp only at h
  rcases h1 : rollMean ((prev.take 3).map (fun x => x.lap_time_seconds))
    with _ | m
  · rw [h1] at h
    injection h with h2
    exact Option.noConfusion h2
  rw [h1] at h
  rcases h2 : r.lap_time_seconds with _ | y
  · rw [h2] at h
    injection h with h3
    exact Option.noConfusion h3
  rw [h2] at h
  dsimp only at h
  split at h
  · rcases hend : r.end_time with _ | ts
    · rw [hend] at h
      exact Except.noConfusion h
    · rw [hend] at h
      injection h with h3
      injection h3 with h4
      subst h4
      refine ⟨by norm_num, by norm_num, ?_⟩
      exact le_trans (by norm_num : (0 : ℚ) ≤ 1/2) (le_max_left _ _)
  · injection h with h3
    exact Option.noConfusion h3

theorem degrStep_some_bounds {g : List LapRow} {e : Event}
    (h : degrStep g = .ok (some e)) :
    0 ≤ e.severity_score ∧ e.severity_score ≤ 1 ∧
      0 ≤ e.time_loss_estimate := by
  unfold degrStep at h
  split at h
  · injection h with h2
    exact Option.noConfusion h2
  · rcases h1 : slopeLSQ g (fun x => x.lap_time_seconds) with _ | s
    · rw [h1] at h
      injection h with h2
      exact Option.noConfusion h2
    rw [h1] at h
    rcases h2 : slopeLSQ g (fun x => x.peak_lat_G) with _ | ls
    · rw [h2] at h
      injection h with h3
      exact Option.noConfusion h3
    rw [h2] at h
    dsimp only at h
    split at h
    · rename_i hc
      rcases hlast : g.getLast? with _ | last
      · rw [hlast] at h
        injection h with h3
        exact Option.noConfusion h3
      rw [hlast] at h
      dsimp only at h
      rcases hlap : last.lap with _ | lapN
      · rw [hlap] at h
        exact Except.noConfusion h
      rw [hlap] at h
      rcases hend : last.end_time with _ | ts
      · rw [hend] at h
        exact Except.noConfusion h
      rw [hend] at h
      injection h with h3
      injection h3 with h4
      subst h4
      rw [Bool.and_eq_true, decide_eq_true_eq, decide_eq_true_eq] at hc
      refine ⟨?_, min_le_left _ _, ?_⟩
      · refine le_min (by norm_num) ?_
        have hs1 := hc.1
        nlinarith
      · refine meanQ_nonneg _ (fun x hx => ?_)
        exact clippedDiffs_nonneg _ x
          (List.mem_reverse.mp (List.take_subset _ _ hx))
    · injection h with h3
      exact Option.noConfusion h3

theorem paceAux_bounds :
    ∀ (s : List LapRow) (prev : List LapRow) (evs : List Event),
      paceAux prev s = .ok evs →
      ∀ e ∈ evs, 0 ≤ e.severity_score ∧ e.severity_score ≤ 1 ∧
        0 ≤ e.time_loss_estimate
  | [], _, evs, h => by
    simp only [paceAux] at h
    cases h
    intro e he
    exact absurd he (List.not_mem_nil _)
  | r :: rest, prev, evs, h => by
    simp only [paceAux] at h
    rcases hps : paceStep (match prev.head? with
        | some h0 => if h0.vehicle_id = r.vehicle_id then prev else []
        | none => prev) r with er | oev
    · rw [hps] at h
      exact Except.noConfusion h
    rw [hps] at h
    rcases hpa : paceAux (r :: (match prev.head? with
        | some h0 => if h0.vehicle_id = r.vehicle_id then prev else []
        | none => prev)) rest with er | evs2
    · rw [hpa] at h
      exact Except.noConfusion h
    rw [hpa] at h
    injection h with h2
    subst h2
    intro e he
    rcases List.mem_append.mp he with hm | hm
    · have : oev = some e := by
        rcases oev with _ | e2
        · exact absurd hm (List.not_mem_nil _)
        · rcases List.mem_singleton.mp hm with rfl
          rfl
      subst this
      exact paceStep_some_bounds hps
    · exact paceAux_bounds rest _ evs2 hpa e hm

theorem degrPass_bounds :
    ∀ (gs : List (List LapRow)) (evs : List Event),
      degrPass gs = .ok evs →
      ∀ e ∈ evs, 0 ≤ e.severity_score ∧ e.severity_score ≤ 1 ∧
        0 ≤ e.time_loss_estimate
  | [], evs, h => by
    simp only [degrPass] at h
    cases h
    intro e he
    exact absurd he (List.not_mem_nil _)
  | g :: gs, evs, h => by
    simp only [degrPass] at h
    rcases hds : degrStep g with er | oev
    · rw [hds] at h
      exact Except.noConfusion h
    rw [hds] at h
    rcases hdp : degrPass gs with er | evs2
    · rw [hdp] at h
      exact Except.noConfusion h
    rw [hdp] at h
    injection h with h2
    subst h2
    intro e he
    rcases List.mem_append.mp he with hm | hm
    · have : oev = some e := by
        rcases oev with _ | e2
        · exact absurd hm (List.not_mem_nil _)
        · rcases List.mem_singleton.mp hm with rfl
          rfl
      subst this
      exact degrStep_some_bounds hds
    · exact degrPass_bounds gs evs2 hdp e hm

/-- C5: every event produced by either detector has severity within
[0, 1] and a nonnegative time-loss estimate. -/
theorem event_bounds :
    (∀ (rows : List LapRow) (evs : List Event),
      detect_lap_level_events rows = .ok evs →
      ∀ e ∈ evs, 0 ≤ e.severity_score ∧ e.severity_score ≤ 1 ∧
        0 ≤ e.time_loss_estimate) ∧
    (∀ (files : String → ℤ → Option (List TeleSample)) (rows : List LapRow)
        (evs : List Event),
      detect_telemetry_events files rows = .ok evs →
      ∀ e ∈ evs, 0 ≤ e.severity_score ∧ e.severity_score ≤ 1 ∧
        0 ≤ e.time_loss_estimate) := by
  constructor
  · intro rows evs h e he
    simp only [detect_lap_level_events] at h
    rcases hpa : paceAux [] (sortB lapRowLe rows) with er | pace
    · rw [hpa] at h
      exact Except.noConfusion h
    rw [hpa] at h
    rcases hdp : degrPass (groupRuns (sortB lapRowLe rows)) with er | degr
    · rw [hdp] at h
      exact Except.noConfusion h
    rw [hdp] at h
    injection h with h2
    subst h2
    rcases List.mem_append.mp he with hm | hm
    · exact paceAux_bounds _ [] pace hpa e hm
    · exact degrPass_bounds _ degr hdp e hm
  · intro files rows
    induction rows with
    | nil =>
      intro evs h e he
      simp only [detect_telemetry_events] at h
      cases h
      exact absurd he (List.not_mem_nil _)
    | cons r rest ih =>
      intro evs h e he
      simp only [detect_telemetry_events] at h
      rcases hlap : r.lap with _ | lapN
      · rw [hlap] at h
        exact Except.noConfusion h
      rw [hlap] at h
      rcases hrest : detect_telemetry_events files rest with er | more
      · rw [hrest] at h
        exact Except.noConfusion h
      rw [hrest] at h
      injection h with h2
      subst h2
      rcases List.mem_append.mp he with hm | hm
      · rcases hfile : files r.vehicle_id lapN with _ | samples
        · rw [hfile] at hm
          exact absurd hm (List.not_mem_nil _)
        · rw [hfile] at hm
          exact detectTeleLap_bounds hm
      · exact ih more hrest e hm

unseal Rat.add Rat.sub Rat.mul Rat.inv Rat.ofScientific in
/-- C5 witness: the bounds applied to the concrete pace_collapse event
and to a concrete lockup event. -/
theorem event_bounds_witness :
    ((0 : ℚ) ≤ 7/10 ∧ (7/10 : ℚ) ≤ 1 ∧ (0 : ℚ) ≤ 5) ∧
    ((0 : ℚ) ≤ 31/60 ∧ (31/60 : ℚ) ≤ 1 ∧ (0 : ℚ) ≤ 10/9) := by
  constructor
  · exact event_bounds.1
      [⟨"A", some 1, some 1, some 90, some (14/10), some (11/10)⟩,
       ⟨"A", some 2, some 2, some 95, some 1, some (8/10)⟩]
      [⟨"A", 2, 2, "pace_collapse", 7/10, 5, none, false, none, none, none⟩]
      (by decide)
      ⟨"A", 2, 2, "pace_collapse", 7/10, 5, none, false, none, none, none⟩
      (by decide)
  · exact event_bounds.2
      (fun _ _ => some
        [⟨some 50, some 0, some 1, some 5, some 5000, some 3⟩,
         ⟨some 48, some 0, some (11/10), some 5, some 5000, some 3⟩,
         ⟨some 45, some 0, some (12/10), some 10, some 5000, some 3⟩,
         ⟨some 40, some 0, some (1/2), some 20, some 5000, some 3⟩])
      [⟨"B", some 1, some 1, some 90, some 1, some 1⟩]
      [⟨"B", 1, 3, "lockup", 31/60, 10/9, some 0, true, some 10,
        some (1/2), none⟩]
      (by decide)
      ⟨"B", 1, 3, "lockup", 31/60, 10/9, some 0, true, some 10,
        some (1/2), none⟩
      (by decide)

/-! ## The lockup rule (C3) -/

theorem sampleStep_timestamp {v : String} {n : ℤ} {i : ℕ}
    {m3 m2 m1 cur : TeleSample} {e : Event}
    (h : sampleStep v n i m3 m2 m1 cur = some e) : e.timestamp = i := by
  rcases sampleStep_eq_some h with hl | hs | hu | hsh
  · rcases lockEv_eq_some hl with
      ⟨_, _, _, _, _, _, _, _, _, _, _, _, _, _, _, _, hts, _, _⟩
    exact hts
  · rcases spinEv_eq_some hs with
      ⟨_, _, _, _, _, _, _, _, _, _, _, _, _, _, _, _, hts, _, _⟩
    exact hts
  · rcases underEv_eq_some hu with
      ⟨_, _, _, _, _, _, _, _, _, _, _, _, _, _, _, _, hts, _, _⟩
    exact hts
  · rcases shiftEv_eq_some hsh with
      ⟨_, _, _, _, _, _, _, _, _, _, _, _, _, _, _, _, hts, _, _⟩
    exact hts

theorem teleAux_timestamp (v : String) (n : ℤ) :
    ∀ (rest : List TeleSample) (idx : ℕ) (m3 m2 m1 : TeleSample) (e : Event),
      e ∈ teleAux v n idx m3 m2 m1 rest → idx ≤ e.timestamp
  | [], _, _, _, _, _, he => absurd he (List.not_mem_nil _)
  | cur :: rest, idx, m3, m2, m1, e, he => by
    simp only [teleAux] at he
    rcases List.mem_append.mp he with h | h
    · have hss : sampleStep v n idx m3 m2 m1 cur = some e := by
        rcases hstep : sampleStep v n idx m3 m2 m1 cur with _ | e2
        · rw [hstep] at h
          exact absurd h (List.not_mem_nil _)
        · rw [hstep] at h
          rcases List.mem_singleton.mp h with rfl
          rfl
      rw [sampleStep_timestamp hss]
    · exact le_trans (Nat.le_succ idx)
        (teleAux_timestamp v n rest (idx + 1) m2 m1 cur e h)

/-- C3 (amended): the lockup rule — tried first, at every sample after
the third of a lap — fires exactly when front brake pressure rose more
than 10 over the prior 2 samples, speed dropped more than 6 over the
prior 3 samples, and lateral G FELL more than 0.3 over the prior 3
samples (the code and its own description check a drop, the claim said
"rose"); the emitted event has
severity = min(1, mean(brake-delta/50, speed-loss/10, latG-drop/2)) and
time_loss_estimate = speed_loss/9. -/
theorem lockup_rule_spec :
    (∀ (v : String) (n : ℤ) (i : ℕ) (m3 m2 m1 cur : TeleSample),
      (∃ e, sampleStep v n i m3 m2 m1 cur = some e ∧
          e.event_type = "lockup") ↔
        (∃ pb0 pb2 sp3 sp0 ac3 ac0 : ℚ,
          cur.pbrake_f = some pb0 ∧ m2.pbrake_f = some pb2 ∧
          m3.speed = some sp3 ∧ cur.speed = some sp0 ∧
          m3.accy_can = some ac3 ∧ cur.accy_can = some ac0 ∧
          pb0 - pb2 > 10 ∧ sp3 - sp0 > 6 ∧ ac3 - ac0 > 3/10)) ∧
    (∀ (v : String) (n : ℤ) (i : ℕ) (m3 m2 m1 cur : TeleSample) (e : Event),
      sampleStep v n i m3 m2 m1 cur = some e → e.event_type = "lockup" →
      ∃ pb0 pb2 sp3 sp0 ac3 ac0 : ℚ,
        cur.pbrake_f = some pb0 ∧ m2.pbrake_f = some pb2 ∧
        m3.speed = some sp3 ∧ cur.speed = some sp0 ∧
        m3.accy_can = some ac3 ∧ cur.accy_can = some ac0 ∧
        e.severity_score =
          min 1 ((|pb0 - pb2| / 50 + (sp3 - sp0) / 10 + (ac3 - ac0) / 2) / 3) ∧
        e.time_loss_estimate = (sp3 - sp0) / 9) ∧
    (∀ (v : String) (n : ℤ) (i : ℕ) (m3 m2 m1 cur : TeleSample) (e : Event),
      lockEv v n i m3 m2 m1 cur = some e →
      sampleStep v n i m3 m2 m1 cur = some e) ∧
    (∀ (v : String) (n : ℤ) (samples : List TeleSample) (e : Event),
      e ∈ detectTeleLap v n samples → 3 ≤ e.timestamp) := by
  refine ⟨?_, ?_, fun v n i m3 m2 m1 cur e h => sampleStep_of_lockEv h, ?_⟩
  · intro v n i m3 m2 m1 cur
    constructor
    · rintro ⟨e, hstep, htype⟩
      rcases sampleStep_eq_some hstep with hl | hs | hu | hsh
      · rcases lockEv_eq_some hl with
          ⟨pb0, pb2, sp3, sp0, ac3, ac0, c1, c2, c3, c4, c5, c6, hb, hsp,
            hac, _, _, _, _⟩
        exact ⟨pb0, pb2, sp3, sp0, ac3, ac0, c1, c2, c3, c4, c5, c6, hb,
          hsp, hac⟩
      · rcases spinEv_eq_some hs with
          ⟨_, _, _, _, _, _, _, _, _, _, _, _, _, _, _, ht, _, _, _⟩
        rw [ht] at htype
        exact absurd htype (by decide)
      · rcases underEv_eq_some hu with
          ⟨_, _, _, _, _, _, _, _, _, _, _, _, _, _, _, ht, _, _, _⟩
        rw [ht] at htype
        exact absurd htype (by decide)
      · rcases shiftEv_eq_some hsh with
          ⟨_, _, _, _, _, _, _, _, _, _, _, _, _, _, _, ht, _, _, _⟩
        rw [ht] at htype
        exact absurd htype (by decide)
    · rintro ⟨pb0, pb2, sp3, sp0, ac3, ac0, c1, c2, c3, c4, c5, c6, hb,
        hsp, hac⟩
      rcases lockEv_of_cond c1 c2 c3 c4 c5 c6 hb hsp hac with ⟨e, he, ht⟩
      exact ⟨e, sampleStep_of_lockEv he, ht⟩
  · intro v n i m3 m2 m1 cur e hstep htype
    rcases sampleStep_eq_some hstep with hl | hs | hu | hsh
    · rcases lockEv_eq_some hl with
        ⟨pb0, pb2, sp3, sp0, ac3, ac0, c1, c2, c3, c4, c5, c6, _, _, _, _,
          _, hsev, htl⟩
      exact ⟨pb0, pb2, sp3, sp0, ac3, ac0, c1, c2, c3, c4, c5, c6, hsev, htl⟩
    · rcases spinEv_eq_some hs with
        ⟨_, _, _, _, _, _, _, _, _, _, _, _, _, _, _, ht, _, _, _⟩
      rw [ht] at htype
      exact absurd htype (by decide)
    · rcases underEv_eq_some hu with
        ⟨_, _, _, _, _, _, _, _, _, _, _, _, _, _, _, ht, _, _, _⟩
      rw [ht] at htype
      exact absurd htype (by decide)
    · rcases shiftEv_eq_some hsh with
        ⟨_, _, _, _, _, _, _, _, _, _, _, _, _, _, _, ht, _, _, _⟩
      rw [ht] at htype
      exact absurd htype (by decide)
  · intro v n samples e he
    rcases samples with _ | ⟨s0, _ | ⟨s1, _ | ⟨s2, rest⟩⟩⟩
    · exact absurd he (List.not_mem_nil _)
    · exact absurd he (List.not_mem_nil _)
    · exact absurd he (List.not_mem_nil _)
    · exact teleAux_timestamp v n rest 3 s0 s1 s2 e he

unseal Rat.add Rat.sub Rat.mul Rat.inv Rat.ofScientific in
/-- C3 witness: at a sample where the brake rose by 15, the speed dropped
by 10 and the lateral G fell by 0.5, the chain emits a lockup. -/
theorem lockup_rule_spec_witness :
    ((20 : ℚ) - 5 > 10 ∧ (50 : ℚ) - 40 > 6 ∧ (1 : ℚ) - 1/2 > 3/10) ∧
    (sampleStep "B" 1 3 ⟨some 50, some 0, some 1, some 5, some 5000, some 3⟩
      ⟨some 48, some 0, some (11/10), some 5, some 5000, some 3⟩
      ⟨some 45, some 0, some (12/10), some 10, some 5000, some 3⟩
      ⟨some 40, some 0, some (1/2), some 20, some 5000, some 3⟩).isSome
      = true := by
  refine ⟨by norm_num, ?_⟩
  rcases (lockup_rule_spec.1 "B" 1 3
      ⟨some 50, some 0, some 1, some 5, some 5000, some 3⟩
      ⟨some 48, some 0, some (11/10), some 5, some 5000, some 3⟩
      ⟨some 45, some 0, some (12/10), some 10, some 5000, some 3⟩
      ⟨some 40, some 0, some (1/2), some 20, some 5000, some 3⟩).mpr
      ⟨20, 5, 50, 40, 1, 1/2, rfl, rfl, rfl, rfl, rfl, rfl,
        by norm_num, by norm_num, by norm_num⟩ with ⟨e, he, _⟩
  rw [he]
  rfl

unseal Rat.add Rat.sub Rat.mul Rat.inv Rat.ofScientific in
/-- C3 counterexample: the brake rose by 15 > 10, the speed dropped by
10 > 6, and the lateral G ROSE by 0.5 > 0.3 (from 1 three samples back
to 3/2 now) — the claim as stated requires a lockup here, but the
detector emits nothing for this sample, because the code checks the
opposite direction `accy(t-3) - accy(t) > 0.3` (a drop, per its own
description "speed and lateral G drop"). -/
theorem lockup_direction_counterexample :
    sampleStep "B" 1 3 ⟨some 50, some 0, some 1, some 5, some 5000, some 3⟩
        ⟨some 48, some 0, some (11/10), some 5, some 5000, some 3⟩
        ⟨some 45, some 0, some (12/10), some 10, some 5000, some 3⟩
        ⟨some 40, some 0, some (3/2), some 20, some 5000, some 3⟩ = none ∧
    ((20 : ℚ) - 5 > 10 ∧ (50 : ℚ) - 40 > 6 ∧ (3/2 : ℚ) - 1 > 3/10) := by
  decide

end RaceIntel
